import Mathlib

/-!
Verification of the file-server backend (node tree, access control resolver,
event journal, notification hub) against its natural-language specification.

The Go code is shallowly embedded: the `database.Queries` methods (querier
layer) become pure functions over an explicit `DB` state, the SQL unique
indexes of `db/init.sql` become an explicit clash check on rows, the
recursive CTE walks become fuel-bounded list recursions, and `Store.ExecTx`
becomes an `Except`-based transaction combinator that restores the original
state on error.  The websocket hub (`Hub.registerClient` /
`Hub.unregisterClient` / `Hub.PublishEvent`, reproduced verbatim in the
repository README) becomes a pure registry of clients with bounded queues.
-/

namespace FileServer

/-- JSON values, used for journal payloads (`event_journal.payload` is JSONB). -/
inductive Json where
  | null : Json
  | bool (b : Bool) : Json
  | num (n : Int) : Json
  | str (s : String) : Json
  | arr (xs : List Json) : Json
  | obj (fields : List (String × Json)) : Json
deriving Repr, BEq

/-- A row of the `nodes` table (cf. `internal/models/node.go` and `db/init.sql`). -/
structure Node where
  id : String
  ownerId : Int
  parentId : Option String
  name : String
  nodeType : String
  sizeBytes : Option Int
  mimeType : Option String
  createdAt : Nat
  modifiedAt : Nat
  deletedAt : Option Nat
  originalParentId : Option String
deriving Repr, DecidableEq

/-- A row of the `shares` table (cf. `internal/models/share.go`). -/
structure Share where
  shareId : Int
  nodeId : String
  sharerId : Int
  recipientId : Int
  permissions : String
deriving Repr, DecidableEq

/-- A row of the `users` table (the fields the embedded operations consult). -/
structure User where
  id : Int
  username : String
  storageQuotaBytes : Int
  storageUsedBytes : Int
deriving Repr, DecidableEq

/-- A row of the `event_journal` table. -/
structure EventRow where
  id : Nat
  userId : Int
  eventType : String
  eventTime : Nat
  payload : Json
deriving Repr

/-- The record shape `database.Event` returned to a poller by `GetEventsSince`. -/
structure Event where
  id : Nat
  eventType : String
  eventTime : Nat
  payload : Json
deriving Repr

/-- The relational state the embedded querier operates on, together with the
`now` timestamp used for `time.Now()` inside the queries. -/
structure DB where
  nodes : List Node
  shares : List Share
  users : List User
  favorites : List (Int × String)
  events : List EventRow
  nextEventId : Nat
  now : Nat
deriving Repr

/-- Typed errors surfaced by the embedded queries: Postgres unique violations
(code 23505), foreign-key violations (code 23503), the handlers' not-found
sentinel, a failing journal append, and the favorite-duplication sentinel. -/
inductive TxError where
  | uniqueViolation : TxError
  | fkViolation : TxError
  | notFound : TxError
  | journalFailure : TxError
  | favoriteExists : TxError
deriving Repr, DecidableEq

/-- Two `nodes` rows collide on the unique name indexes of `db/init.sql`
(`unique_name_in_folder` on (owner_id, parent_id, name) where parent_id is
non-null, `unique_name_in_root` on (owner_id, name) where parent_id is null)
iff they agree on owner, name and parent, where two null parents also agree. -/
def clashB (a b : Node) : Bool :=
  a.ownerId == b.ownerId && a.name == b.name && a.parentId == b.parentId

/-- Whether a list of rows contains two distinct positions that collide on
the unique name indexes. -/
def hasClashB : List Node → Bool
  | [] => false
  | a :: l => l.any (fun b => clashB a b) || hasClashB l

/-- The ancestor chain of the recursive CTE `node_parents` used by
`HasAccessToNode` and `CheckWritePermission`: start at the row with the given
id and repeatedly join the parent row, truncated by fuel. -/
def parentChain (nodes : List Node) : Nat → Option String → List Node
  | 0, _ => []
  | _ + 1, none => []
  | fuel + 1, some i =>
    match nodes.find? (fun m => m.id == i) with
    | none => []
    | some m => m :: parentChain nodes fuel m.parentId

/-- `node_parents` for a node id: the node itself followed by its ancestors. -/
def nodeParents (db : DB) (i : String) : List Node :=
  parentChain db.nodes (db.nodes.length + 1) (some i)

/-- `Queries.HasAccessToNode`: whether any share row grants the recipient
access to the node or one of its ancestors (any permission qualifies). -/
def hasAccessToNode (db : DB) (nodeId : String) (recipientId : Int) : Bool :=
  db.shares.any (fun s =>
    s.recipientId == recipientId && (nodeParents db nodeId).any (fun m => m.id == s.nodeId))

/-- `Queries.GetNodeIfAccessible`: fetch the live node, return it if the user
is the owner or `HasAccessToNode` holds, otherwise report it as absent. -/
def getNodeIfAccessible (db : DB) (nodeId : String) (userId : Int) : Option Node :=
  match db.nodes.find? (fun n => n.id == nodeId && n.deletedAt == none) with
  | none => none
  | some n =>
    if n.ownerId == userId then some n
    else if hasAccessToNode db nodeId userId then some n
    else none

/-- `Queries.CheckWritePermission`: nil parent is allowed unconditionally;
otherwise the ancestor chain of the parent must contain a node owned by the
user or a node with a write share to the user. -/
def checkWritePermission (db : DB) (userId : Int) (parentId : Option String) : Bool :=
  match parentId with
  | none => true
  | some pid =>
    (nodeParents db pid).any (fun n => n.ownerId == userId) ||
      db.shares.any (fun s =>
        s.recipientId == userId && s.permissions == "write" &&
          (nodeParents db pid).any (fun m => m.id == s.nodeId))

/-- One level of the recursive CTE `node_children` / `nodes_to_delete`: the
ids of all rows whose parent is in the current level. -/
def childLevel (nodes : List Node) (level : List String) : List String :=
  (nodes.filter (fun n =>
    match n.parentId with
    | some p => level.contains p
    | none => false)).map (fun n => n.id)

/-- All ids produced by iterating `childLevel`, truncated by fuel; mirrors
the UNION ALL recursion of the descendant CTEs. -/
def descendantsAux (nodes : List Node) : Nat → List String → List String
  | 0, _ => []
  | fuel + 1, level =>
    match childLevel nodes level with
    | [] => []
    | c :: cs => (c :: cs) ++ descendantsAux nodes fuel (c :: cs)

/-- The j-fold iteration of `childLevel`, used to reason about the recursive
CTE by levels. -/
def childIter (nodes : List Node) : Nat → List String → List String
  | 0, level => level
  | j + 1, level => childIter nodes j (childLevel nodes level)

/-- Reachability downward from a starting level by child links: either a
member of the level, or the id of a row whose parent is reachable. -/
inductive ReachDown (nodes : List Node) (level : List String) : String → Prop
  | base {x : String} (h : x ∈ level) : ReachDown nodes level x
  | step {q : String} (m : Node) (hq : ReachDown nodes level q) (hm : m ∈ nodes)
      (hpar : m.parentId = some q) : ReachDown nodes level m.id

/-- The descendant relation of the specification: a node id is a descendant
of the root id when it is the root itself or the id of a row whose parent
chain leads up to the root. -/
inductive DescendantOf (nodes : List Node) (root : String) : String → Prop
  | refl : DescendantOf nodes root root
  | step {q : String} (m : Node) (hq : DescendantOf nodes root q) (hm : m ∈ nodes)
      (hpar : m.parentId = some q) : DescendantOf nodes root m.id

/-- `Queries.IsDescendantOf`: reflexive, otherwise whether the candidate is in
the subtree obtained by walking child links down from the node. -/
def isDescendantOf (db : DB) (nodeId : String) (potentialParentId : String) : Bool :=
  if nodeId == potentialParentId then true
  else
    let base := (db.nodes.filter (fun n => n.id == nodeId)).map (fun n => n.id)
    let subtree := base ++ descendantsAux db.nodes db.nodes.length base
    subtree.contains potentialParentId

/-- The base level of `nodes_to_delete` in `MoveNodeToTrash`: the target row
if it is live and owned by the caller. -/
def trashBase (db : DB) (i : String) (ownerId : Int) : List String :=
  (db.nodes.filter (fun n =>
    n.id == i && n.ownerId == ownerId && n.deletedAt == none)).map (fun n => n.id)

/-- The full id set of `nodes_to_delete` in `MoveNodeToTrash`. -/
def trashSet (db : DB) (i : String) (ownerId : Int) : List String :=
  trashBase db i ownerId ++ descendantsAux db.nodes db.nodes.length (trashBase db i ownerId)

/-- The field update applied by `MoveNodeToTrash` to every collected row:
set the deletion timestamp, copy the parent into original_parent, clear the
parent. -/
def trashFields (now : Nat) (n : Node) : Node :=
  { n with deletedAt := some now, originalParentId := n.parentId, parentId := none }

/-- `Queries.MoveNodeToTrash`: update every row of the recursive id set; the
Bool reports whether any row was affected; a unique-index violation caused by
the update aborts it. -/
def moveNodeToTrash (db : DB) (i : String) (ownerId : Int) :
    Except TxError (DB × Bool) :=
  let ids := trashSet db i ownerId
  let updated := db.nodes.map (fun n => if ids.contains n.id then trashFields db.now n else n)
  if hasClashB updated then Except.error TxError.uniqueViolation
  else Except.ok ({ db with nodes := updated }, db.nodes.any (fun n => ids.contains n.id))

/-- The field update applied by `RestoreNode` to the matched row: clear the
deletion timestamp, reinstate the parent from original_parent, clear
original_parent. -/
def restoreFields (n : Node) : Node :=
  { n with deletedAt := none, parentId := n.originalParentId, originalParentId := none }

/-- `Queries.RestoreNode`: update the trashed row owned by the caller; the
Bool reports whether a row was affected; a 23505 on the reinstated position
surfaces as a duplicate-name error. -/
def restoreNode (db : DB) (i : String) (ownerId : Int) :
    Except TxError (DB × Bool) :=
  let updated := db.nodes.map (fun n =>
    if n.id == i && n.ownerId == ownerId && !(n.deletedAt == none) then restoreFields n else n)
  if hasClashB updated then Except.error TxError.uniqueViolation
  else Except.ok ({ db with nodes := updated },
    db.nodes.any (fun n => n.id == i && n.ownerId == ownerId && !(n.deletedAt == none)))

/-- The parameter record of `Queries.CreateNode`. -/
structure CreateNodeParams where
  id : String
  ownerId : Int
  parentId : Option String
  name : String
  nodeType : String
  sizeBytes : Option Int
  mimeType : Option String
deriving Repr, DecidableEq

/-- The row inserted by `Queries.CreateNode`: live, with both timestamps set
to the insertion time and no original parent. -/
def newNodeRow (arg : CreateNodeParams) (now : Nat) : Node :=
  { id := arg.id, ownerId := arg.ownerId, parentId := arg.parentId, name := arg.name,
    nodeType := arg.nodeType, sizeBytes := arg.sizeBytes, mimeType := arg.mimeType,
    createdAt := now, modifiedAt := now, deletedAt := none, originalParentId := none }

/-- `Queries.CreateNode`: insert a fresh live row with both timestamps set to
now; primary-key and parent/owner foreign-key violations and the unique name
indexes abort the insert. -/
def createNode (db : DB) (arg : CreateNodeParams) : Except TxError (DB × Node) :=
  if db.nodes.any (fun n => n.id == arg.id) then Except.error TxError.uniqueViolation
  else if !(db.users.any (fun u => u.id == arg.ownerId)) then Except.error TxError.fkViolation
  else if (match arg.parentId with
    | some p => !(db.nodes.any (fun n => n.id == p))
    | none => false) then Except.error TxError.fkViolation
  else if db.nodes.any (fun n => clashB (newNodeRow arg db.now) n) then
    Except.error TxError.uniqueViolation
  else
    Except.ok ({ db with nodes := db.nodes ++ [newNodeRow arg db.now] }, newNodeRow arg db.now)

/-- `Queries.RenameNode`: update name and modified time of the live row owned
by the caller; a 23505 surfaces as a duplicate-name error; the Bool reports
whether a row was affected. -/
def renameNode (db : DB) (i : String) (ownerId : Int) (newName : String) :
    Except TxError (DB × Bool) :=
  let affected := db.nodes.any (fun n => n.id == i && n.ownerId == ownerId && n.deletedAt == none)
  if !affected then Except.ok (db, false)
  else
    let updated := db.nodes.map (fun n =>
      if n.id == i && n.ownerId == ownerId && n.deletedAt == none then
        { n with name := newName, modifiedAt := db.now }
      else n)
    if hasClashB updated then Except.error TxError.uniqueViolation
    else Except.ok ({ db with nodes := updated }, true)

/-- `Queries.MoveNode`: update parent and modified time of the live row owned
by the caller; 23503 (missing target folder) and 23505 (duplicate name at the
destination) abort; the Bool reports whether a row was affected. -/
def moveNode (db : DB) (i : String) (ownerId : Int) (newParentId : Option String) :
    Except TxError (DB × Bool) :=
  let affected := db.nodes.any (fun n => n.id == i && n.ownerId == ownerId && n.deletedAt == none)
  if !affected then Except.ok (db, false)
  else
    match newParentId with
    | some p =>
      if !(db.nodes.any (fun n => n.id == p)) then Except.error TxError.fkViolation
      else
        let updated := db.nodes.map (fun n =>
          if n.id == i && n.ownerId == ownerId && n.deletedAt == none then
            { n with parentId := newParentId, modifiedAt := db.now }
          else n)
        if hasClashB updated then Except.error TxError.uniqueViolation
        else Except.ok ({ db with nodes := updated }, true)
    | none =>
      let updated := db.nodes.map (fun n =>
        if n.id == i && n.ownerId == ownerId && n.deletedAt == none then
          { n with parentId := none, modifiedAt := db.now }
        else n)
      if hasClashB updated then Except.error TxError.uniqueViolation
      else Except.ok ({ db with nodes := updated }, true)

/-- The envelope `LogEvent` marshals into the `payload` column: a JSON object
holding the event type and the caller-supplied payload. -/
def eventEnvelope (eventType : String) (payload : Json) : Json :=
  Json.obj [("event_type", Json.str eventType), ("payload", payload)]

/-- Environment switches for effects whose success is decided outside the
embedded state: whether the journal INSERT fails. -/
structure Env where
  journalFails : Bool
deriving Repr, DecidableEq

/-- `Queries.LogEvent`: append one journal row whose payload column holds the
`{event_type, payload}` envelope; the append can fail (oversized payload,
storage error), modelled by the environment switch. -/
def logEvent (env : Env) (db : DB) (userId : Int) (eventType : String) (payload : Json) :
    Except TxError DB :=
  if env.journalFails then Except.error TxError.journalFailure
  else
    Except.ok { db with
      events := db.events ++
        [{ id := db.nextEventId, userId := userId, eventType := eventType,
           eventTime := db.now, payload := eventEnvelope eventType payload }],
      nextEventId := db.nextEventId + 1 }

/-- Insertion into a list of journal rows kept ascending by id. -/
def insertById (e : EventRow) : List EventRow → List EventRow
  | [] => [e]
  | x :: xs => if e.id ≤ x.id then e :: x :: xs else x :: insertById e xs

/-- Ascending-id ordering of journal rows (the ORDER BY id ASC of the query). -/
def sortById : List EventRow → List EventRow
  | [] => []
  | x :: xs => insertById x (sortById xs)

/-- `Queries.GetEventsSince`: the journal rows of the user with id strictly
greater than the cursor, in ascending id order, capped at 100, projected to
the poller record shape. -/
def getEventsSince (db : DB) (userId : Int) (sinceId : Nat) : List Event :=
  ((sortById (db.events.filter (fun e => e.userId == userId && sinceId < e.id))).take 100).map
    (fun e => { id := e.id, eventType := e.eventType, eventTime := e.eventTime,
                payload := e.payload })

/-- `Queries.UpdateUserStorage`: add the byte delta to the user's used-storage
counter. -/
def updateUserStorage (db : DB) (userId : Int) (bytesChange : Int) : DB :=
  { db with users := db.users.map (fun u =>
      if u.id == userId then { u with storageUsedBytes := u.storageUsedBytes + bytesChange }
      else u) }

/-- `Queries.GetUserByID`. -/
def getUserByID (db : DB) (i : Int) : Option User :=
  db.users.find? (fun u => u.id == i)

/-- `Queries.AddFavorite`: access check via `GetNodeIfAccessible`, then insert
into `user_favorites`; a duplicate primary key surfaces as the
already-in-favorites sentinel. -/
def addFavorite (db : DB) (userId : Int) (nodeId : String) : Except TxError DB :=
  match getNodeIfAccessible db nodeId userId with
  | none => Except.error TxError.notFound
  | some _ =>
    if db.favorites.contains (userId, nodeId) then Except.error TxError.favoriteExists
    else Except.ok { db with favorites := db.favorites ++ [(userId, nodeId)] }

/-- The parameter record of `Queries.ShareNode`. -/
structure ShareNodeParams where
  nodeId : String
  sharerId : Int
  recipientId : Int
  permissions : String
deriving Repr, DecidableEq

/-- `Queries.ShareNode`: insert a share row; a duplicate (node, recipient)
pair surfaces as already-shared (23505) and a missing recipient as a
foreign-key violation (23503). -/
def shareNode (db : DB) (arg : ShareNodeParams) : Except TxError (DB × Share) :=
  if db.shares.any (fun s => s.nodeId == arg.nodeId && s.recipientId == arg.recipientId) then
    Except.error TxError.uniqueViolation
  else if !(db.users.any (fun u => u.id == arg.recipientId)) then
    Except.error TxError.fkViolation
  else
    let row : Share :=
      { shareId := Int.ofNat db.shares.length, nodeId := arg.nodeId, sharerId := arg.sharerId,
        recipientId := arg.recipientId, permissions := arg.permissions }
    Except.ok ({ db with shares := db.shares ++ [row] }, row)

/-- `Store.ExecTx`: run the transaction body; commit its state on success,
roll back to the original state on any error. -/
def execTx (db : DB) (fn : DB → Except TxError DB) : DB × Option TxError :=
  match fn db with
  | Except.ok db2 => (db2, none)
  | Except.error e => (db, some e)

/-- `Queries.GetNodeByID`: the live row with the given id and owner. -/
def getNodeByID (db : DB) (i : String) (ownerId : Int) : Option Node :=
  db.nodes.find? (fun n => n.id == i && n.ownerId == ownerId && n.deletedAt == none)

/-- JSON encoding of an optional string (null when absent). -/
def strOpt : Option String → Json
  | none => Json.null
  | some s => Json.str s

/-- JSON encoding of an optional integer (null when absent). -/
def intOpt : Option Int → Json
  | none => Json.null
  | some n => Json.num n

/-- The Go JSON marshalling of `models.Node` (original_parent_id carries the
json "-" tag and is omitted; deleted_at is omitempty). -/
def nodeJson (n : Node) : Json :=
  Json.obj
    ([("id", Json.str n.id), ("owner_id", Json.num n.ownerId),
      ("parent_id", strOpt n.parentId), ("name", Json.str n.name),
      ("node_type", Json.str n.nodeType), ("size_bytes", intOpt n.sizeBytes),
      ("mime_type", strOpt n.mimeType),
      ("created_at", Json.num (Int.ofNat n.createdAt)),
      ("modified_at", Json.num (Int.ofNat n.modifiedAt))] ++
      (match n.deletedAt with
       | none => []
       | some t => [("deleted_at", Json.num (Int.ofNat t))]))

/-- The Go JSON marshalling of `models.Share`. -/
def shareJson (s : Share) : Json :=
  Json.obj
    [("id", Json.num s.shareId), ("node_id", Json.str s.nodeId),
     ("sharer_id", Json.num s.sharerId), ("recipient_id", Json.num s.recipientId),
     ("permissions", Json.str s.permissions)]

/-- The transaction body of `CreateFolderHandler` (lines 120-148): create the
node, journal a `node_created` event for the actor, and when a shared parent
folder belongs to someone else journal the same payload for that owner. -/
def createFolderBody (env : Env) (actorId : Int) (parentFolderOwnerId : Option Int)
    (arg : CreateNodeParams) (db : DB) : Except TxError DB :=
  match createNode db arg with
  | Except.error e => Except.error e
  | Except.ok (db1, node) =>
    match logEvent env db1 actorId "node_created" (nodeJson node) with
    | Except.error e => Except.error e
    | Except.ok db2 =>
      match parentFolderOwnerId with
      | some o =>
        if actorId == o then Except.ok db2
        else logEvent env db2 o "node_created" (nodeJson node)
      | none => Except.ok db2

/-- `CreateFolderHandler`'s mutation step: the body above wrapped in `ExecTx`. -/
def createFolderOp (env : Env) (db : DB) (actorId : Int) (parentFolderOwnerId : Option Int)
    (arg : CreateNodeParams) : DB × Option TxError :=
  execTx db (createFolderBody env actorId parentFolderOwnerId arg)

/-- The rename payload of `UpdateNodeHandler`. -/
def renamePayload (nodeId newName oldName : String) : Json :=
  Json.obj [("id", Json.str nodeId), ("new_name", Json.str newName),
            ("old_name", Json.str oldName)]

/-- The transaction body of the rename branch of `UpdateNodeHandler`
(lines 595-612). -/
def renameBody (env : Env) (actorId ownerId : Int) (nodeId newName oldName : String)
    (db : DB) : Except TxError DB :=
  match renameNode db nodeId ownerId newName with
  | Except.error e => Except.error e
  | Except.ok (_, false) => Except.error TxError.notFound
  | Except.ok (db1, true) =>
    match logEvent env db1 actorId "node_renamed" (renamePayload nodeId newName oldName) with
    | Except.error e => Except.error e
    | Except.ok db2 =>
      if actorId == ownerId then Except.ok db2
      else logEvent env db2 ownerId "node_renamed" (renamePayload nodeId newName oldName)

/-- The rename mutation of `UpdateNodeHandler` wrapped in `ExecTx`. -/
def renameOp (env : Env) (db : DB) (actorId ownerId : Int) (nodeId newName oldName : String) :
    DB × Option TxError :=
  execTx db (renameBody env actorId ownerId nodeId newName oldName)

/-- The move payload of `UpdateNodeHandler`. -/
def movePayload (nodeId : String) (reqParentId : String) (oldParentId : Option String) : Json :=
  Json.obj [("id", Json.str nodeId), ("new_parent_id", Json.str reqParentId),
            ("old_parent_id", strOpt oldParentId)]

/-- The transaction body of the move branch of `UpdateNodeHandler`
(lines 704-723). -/
def moveBody (env : Env) (actorId ownerId : Int) (nodeId : String)
    (newParentId : Option String) (reqParentId : String) (oldParentId : Option String)
    (db : DB) : Except TxError DB :=
  match moveNode db nodeId ownerId newParentId with
  | Except.error e => Except.error e
  | Except.ok (_, false) => Except.error TxError.notFound
  | Except.ok (db1, true) =>
    match logEvent env db1 actorId "node_moved" (movePayload nodeId reqParentId oldParentId) with
    | Except.error e => Except.error e
    | Except.ok db2 =>
      if actorId == ownerId then Except.ok db2
      else logEvent env db2 ownerId "node_moved" (movePayload nodeId reqParentId oldParentId)

/-- The move mutation of `UpdateNodeHandler` wrapped in `ExecTx`. -/
def moveOp (env : Env) (db : DB) (actorId ownerId : Int) (nodeId : String)
    (newParentId : Option String) (reqParentId : String) (oldParentId : Option String) :
    DB × Option TxError :=
  execTx db (moveBody env actorId ownerId nodeId newParentId reqParentId oldParentId)

/-- The trash payload of `DeleteNodeHandler` (missing parent encoded as the
empty string, as in the handler). -/
def trashPayload (nodeId : String) (parentId : Option String) : Json :=
  Json.obj [("id", Json.str nodeId),
            ("parent_id", Json.str (match parentId with | none => "" | some p => p))]

/-- The transaction body of `DeleteNodeHandler` (lines 483-507). -/
def trashBody (env : Env) (actorId ownerId : Int) (nodeId : String)
    (oldParentId : Option String) (db : DB) : Except TxError DB :=
  match moveNodeToTrash db nodeId ownerId with
  | Except.error e => Except.error e
  | Except.ok (_, false) => Except.error TxError.notFound
  | Except.ok (db1, true) =>
    match logEvent env db1 actorId "node_trashed" (trashPayload nodeId oldParentId) with
    | Except.error e => Except.error e
    | Except.ok db2 =>
      if actorId == ownerId then Except.ok db2
      else logEvent env db2 ownerId "node_trashed" (trashPayload nodeId oldParentId)

/-- The trash mutation of `DeleteNodeHandler` wrapped in `ExecTx`. -/
def trashOp (env : Env) (db : DB) (actorId ownerId : Int) (nodeId : String)
    (oldParentId : Option String) : DB × Option TxError :=
  execTx db (trashBody env actorId ownerId nodeId oldParentId)

/-- The transaction body of `RestoreNodeHandler` (lines 96-114): restore,
re-read the restored row, journal a `node_restored` event. -/
def restoreBody (env : Env) (actorId : Int) (nodeId : String) (db : DB) :
    Except TxError DB :=
  match restoreNode db nodeId actorId with
  | Except.error e => Except.error e
  | Except.ok (_, false) => Except.error TxError.notFound
  | Except.ok (db1, true) =>
    match getNodeByID db1 nodeId actorId with
    | none => Except.error TxError.notFound
    | some restored => logEvent env db1 actorId "node_restored" (nodeJson restored)

/-- The restore mutation of `RestoreNodeHandler` wrapped in `ExecTx`. -/
def restoreOp (env : Env) (db : DB) (actorId : Int) (nodeId : String) :
    DB × Option TxError :=
  execTx db (restoreBody env actorId nodeId)

/-- The transaction body of `AddFavoriteHandler`. -/
def favoriteBody (env : Env) (userId : Int) (nodeId : String) (db : DB) :
    Except TxError DB :=
  match addFavorite db userId nodeId with
  | Except.error e => Except.error e
  | Except.ok db1 =>
    logEvent env db1 userId "favorite_added" (Json.obj [("node_id", Json.str nodeId)])

/-- The favorite mutation of `AddFavoriteHandler` wrapped in `ExecTx`. -/
def favoriteOp (env : Env) (db : DB) (userId : Int) (nodeId : String) :
    DB × Option TxError :=
  execTx db (favoriteBody env userId nodeId)

/-- The transaction body of `ShareNodeHandler`: insert the share, journal a
`node_shared_with_you` event for the recipient. -/
def shareBody (env : Env) (arg : ShareNodeParams) (nodeInfo : Json) (db : DB) :
    Except TxError DB :=
  match shareNode db arg with
  | Except.error e => Except.error e
  | Except.ok (db1, share) =>
    logEvent env db1 arg.recipientId "node_shared_with_you"
      (Json.obj [("share_info", shareJson share), ("node_info", nodeInfo)])

/-- The share mutation of `ShareNodeHandler` wrapped in `ExecTx`. -/
def shareOp (env : Env) (db : DB) (arg : ShareNodeParams) (nodeInfo : Json) :
    DB × Option TxError :=
  execTx db (shareBody env arg nodeInfo)

/-- HTTP-level error outcomes of the embedded handler flows. -/
inductive ApiError where
  | badRequest : ApiError
  | forbidden : ApiError
  | notFoundApi : ApiError
  | conflict : ApiError
  | invalidOperation : ApiError
  | payloadTooLarge : ApiError
  | internalErr : ApiError
deriving Repr, DecidableEq

/-- The move branch of `UpdateNodeHandler` (lines 638-746): resolve the
destination, refuse cross-owner moves, check write permission on source and
destination, run the cycle guard for folders (with the empty string standing
for a root destination, as in the handler), then perform the move
transaction.  Errors are mapped as the handler maps HTTP statuses. -/
def moveNodeFlow (env : Env) (db : DB) (actorId : Int) (nodeId : String)
    (reqParentId : String) : DB × Option ApiError :=
  match getNodeIfAccessible db nodeId actorId with
  | none => (db, some ApiError.notFoundApi)
  | some originalNode =>
    if reqParentId != "root" && reqParentId.length != 21 then (db, some ApiError.badRequest)
    else
      let newParentId : Option String := if reqParentId == "root" then none else some reqParentId
      let destResolved : Option Int :=
        match newParentId with
        | none => some actorId
        | some p =>
          match getNodeIfAccessible db p actorId with
          | none => none
          | some destParent => some destParent.ownerId
      match destResolved with
      | none => (db, some ApiError.notFoundApi)
      | some destOwnerId =>
        if originalNode.ownerId != destOwnerId then (db, some ApiError.badRequest)
        else if !(checkWritePermission db actorId originalNode.parentId) then
          (db, some ApiError.forbidden)
        else if !(checkWritePermission db actorId newParentId) then
          (db, some ApiError.forbidden)
        else
          let potentialParentId : String :=
            match newParentId with
            | none => ""
            | some p => p
          if originalNode.nodeType == "folder" &&
              isDescendantOf db nodeId potentialParentId then
            (db, some ApiError.invalidOperation)
          else
            match moveOp env db actorId originalNode.ownerId nodeId newParentId reqParentId
                originalNode.parentId with
            | (db1, none) => (db1, none)
            | (db1, some TxError.uniqueViolation) => (db1, some ApiError.conflict)
            | (db1, some TxError.fkViolation) => (db1, some ApiError.badRequest)
            | (db1, some _) => (db1, some ApiError.internalErr)

/-- The permission gate of `DeleteNodeHandler` (lines 463-481): the node must
be accessible to the actor and the actor must hold write permission on the
node's parent. -/
def deleteNodeGate (db : DB) (actorId : Int) (nodeId : String) : Bool :=
  match getNodeIfAccessible db nodeId actorId with
  | none => false
  | some node => checkWritePermission db actorId node.parentId

/-- One file of a multipart upload batch. -/
structure FileUpload where
  filename : String
  size : Int
  mime : String
deriving Repr, DecidableEq

/-- The per-file transaction body of `UploadFileHandler` (lines 312-355):
create the file node, charge the owner's storage counter, journal
`node_created` for the actor and (for an uploads into someone else's shared
folder) for the owning principal. -/
def uploadTxBody (env : Env) (actorId ownerId : Int) (parentFolderOwnerId : Option Int)
    (parentId : Option String) (fileId : String) (f : FileUpload) (db : DB) :
    Except TxError (DB × Node) :=
  match createNode db
      { id := fileId, ownerId := ownerId, parentId := parentId, name := f.filename,
        nodeType := "file", sizeBytes := some f.size, mimeType := some f.mime } with
  | Except.error e => Except.error e
  | Except.ok (db1, node) =>
    let db2 := updateUserStorage db1 ownerId f.size
    match logEvent env db2 actorId "node_created" (nodeJson node) with
    | Except.error e => Except.error e
    | Except.ok db3 =>
      match parentFolderOwnerId with
      | some o =>
        if actorId == o then Except.ok (db3, node)
        else
          match logEvent env db3 o "node_created" (nodeJson node) with
          | Except.error e => Except.error e
          | Except.ok db4 => Except.ok (db4, node)
      | none => Except.ok (db3, node)

/-- One iteration of the upload loop: save the blob, run the transaction;
on transaction failure roll the database back and delete the orphaned blob. -/
def uploadOneFile (env : Env) (db : DB) (blobs : List String) (actorId ownerId : Int)
    (parentFolderOwnerId : Option Int) (parentId : Option String) (fileId : String)
    (f : FileUpload) : DB × List String × Option Node :=
  match uploadTxBody env actorId ownerId parentFolderOwnerId parentId fileId f db with
  | Except.ok (db1, node) => (db1, blobs ++ [fileId], some node)
  | Except.error _ => (db, (blobs ++ [fileId]).erase fileId, none)

/-- The upload loop over the files of the batch (failures are isolated per
file, successes are collected). -/
def uploadLoop (env : Env) (actorId ownerId : Int) (parentFolderOwnerId : Option Int)
    (parentId : Option String) :
    DB → List String → List (String × FileUpload) → DB × List String × List Node
  | db, blobs, [] => (db, blobs, [])
  | db, blobs, (fileId, f) :: rest =>
    match uploadOneFile env db blobs actorId ownerId parentFolderOwnerId parentId fileId f with
    | (db1, blobs1, some node) =>
      match uploadLoop env actorId ownerId parentFolderOwnerId parentId db1 blobs1 rest with
      | (db2, blobs2, nodes) => (db2, blobs2, node :: nodes)
    | (db1, blobs1, none) =>
      uploadLoop env actorId ownerId parentFolderOwnerId parentId db1 blobs1 rest

/-- `UploadFileHandler` from the quota check on (lines 283-385): resolve the
owner, reject the whole batch when the combined size would exceed the owner's
quota (before any blob is saved), otherwise process the files one by one and
fail only if no file went through. -/
def uploadFiles (env : Env) (db : DB) (blobs : List String) (actorId ownerId : Int)
    (parentFolderOwnerId : Option Int) (parentId : Option String)
    (files : List (String × FileUpload)) :
    DB × List String × Except ApiError (List Node) :=
  match getUserByID db ownerId with
  | none => (db, blobs, Except.error ApiError.internalErr)
  | some ownerUser =>
    let total := (files.map (fun x => x.2.size)).sum
    if ownerUser.storageQuotaBytes < ownerUser.storageUsedBytes + total then
      (db, blobs, Except.error ApiError.payloadTooLarge)
    else
      match uploadLoop env actorId ownerId parentFolderOwnerId parentId db blobs files with
      | (db1, blobs1, []) => (db1, blobs1, Except.error ApiError.internalErr)
      | (db1, blobs1, n :: ns) => (db1, blobs1, Except.ok (n :: ns))

/-- A websocket client registered with the hub: an identity, the owning user,
the bounded outbound queue and its capacity (256 in `NewClient`). -/
structure HubClient where
  cid : Nat
  userId : Int
  send : List String
  cap : Nat
deriving Repr, DecidableEq

/-- The hub registry: the flattened per-user sets of live connections. -/
structure Hub where
  clients : List HubClient
deriving Repr, DecidableEq

/-- `Hub.registerClient`: add the connection to its user's set (adding an
already-present member of the set is a no-op). -/
def registerClient (h : Hub) (c : HubClient) : Hub :=
  if h.clients.any (fun x => x.cid == c.cid) then h
  else { clients := h.clients ++ [c] }

/-- `Hub.unregisterClient`: remove the connection from its user's set and
close its queue; removing an absent connection is a no-op. -/
def unregisterClient (h : Hub) (cid : Nat) : Hub :=
  { clients := h.clients.filter (fun x => !(x.cid == cid)) }

/-- `Hub.PublishEvent`: for every registered connection of the user, a
non-blocking enqueue — the payload is appended when the bounded queue has
room and dropped otherwise; other users' connections are untouched. -/
def publishEvent (h : Hub) (userId : Int) (eventData : String) : Hub :=
  { clients := h.clients.map (fun c =>
      if c.userId == userId then
        if c.send.length < c.cap then { c with send := c.send ++ [eventData] } else c
      else c) }

/-! Concrete fixtures used by counterexamples and witnesses. -/

/-- Environment with a working journal. -/
def envOk : Env := { journalFails := false }

/-- Environment where the journal INSERT fails. -/
def envJF : Env := { journalFails := true }

/-- A folder row fixture. -/
def mkFolder (i : String) (owner : Int) (parent : Option String) (nm : String) : Node :=
  { id := i, ownerId := owner, parentId := parent, name := nm, nodeType := "folder",
    sizeBytes := none, mimeType := none, createdAt := 0, modifiedAt := 0,
    deletedAt := none, originalParentId := none }

/-- A file row fixture. -/
def mkFile (i : String) (owner : Int) (parent : Option String) (nm : String) (sz : Int) : Node :=
  { id := i, ownerId := owner, parentId := parent, name := nm, nodeType := "file",
    sizeBytes := some sz, mimeType := some "text/plain", createdAt := 0, modifiedAt := 0,
    deletedAt := none, originalParentId := none }

/-- User fixture. -/
def mkUser (i : Int) (quota used : Int) : User :=
  { id := i, username := "u", storageQuotaBytes := quota, storageUsedBytes := used }

/-- Fixture: owner 1 has root folder P with child folder C. -/
def dbPC : DB :=
  { nodes := [mkFolder "P" 1 none "P", mkFolder "C" 1 (some "P") "C"],
    shares := [], users := [mkUser 1 100 0], favorites := [], events := [],
    nextEventId := 1, now := 5 }

/-- Fixture: dbPC after `MoveNodeToTrash` of the root folder P. -/
def dbPCTrashed : DB :=
  match moveNodeToTrash dbPC "P" 1 with
  | Except.ok (db1, _) => db1
  | Except.error _ => dbPC

/-- Fixture: owner 1 has root folder A shared read-only with user 2, with a
child folder B. -/
def dbShared : DB :=
  { nodes := [mkFolder "A" 1 none "A", mkFolder "B" 1 (some "A") "B"],
    shares := [{ shareId := 1, nodeId := "A", sharerId := 1, recipientId := 2,
                 permissions := "read" }],
    users := [mkUser 1 100 0, mkUser 2 100 0], favorites := [], events := [],
    nextEventId := 1, now := 5 }

/-- 21-character node ids for the handler flows that validate id length. -/
def idG : String := "GGGGGGGGGGGGGGGGGGGGG"

/-- 21-character node id fixture. -/
def idP : String := "PPPPPPPPPPPPPPPPPPPPP"

/-- 21-character node id fixture. -/
def idF : String := "FFFFFFFFFFFFFFFFFFFFF"

/-- Fixture: the chain G <- P <- F of folders of owner 1 (F's ancestors are P
and G). -/
def dbChain : DB :=
  { nodes := [mkFolder idG 1 none "G", mkFolder idP 1 (some idG) "P",
              mkFolder idF 1 (some idP) "F"],
    shares := [], users := [mkUser 1 100 0], favorites := [], events := [],
    nextEventId := 1, now := 5 }

/-- Fixture: owner 1 has a single root file named doc. -/
def dbRootDoc : DB :=
  { nodes := [mkFile "A" 1 none "doc" 3],
    shares := [], users := [mkUser 1 100 3], favorites := [], events := [],
    nextEventId := 1, now := 5 }

/-- Fixture: dbRootDoc after `MoveNodeToTrash` of the root file. -/
def dbRootDocTrashed : DB :=
  match moveNodeToTrash dbRootDoc "A" 1 with
  | Except.ok (db1, _) => db1
  | Except.error _ => dbRootDoc

/-- The payload of the C10 counterexample: the shape the spec prescribes for a
`node_trashed` journal record. -/
def trashedPayloadEx : Json :=
  Json.obj [("id", Json.str "A"), ("parent_id", Json.str "")]

/-- Fixture: dbRootDoc after journalling a `node_trashed` event for user 1. -/
def dbLogged : DB :=
  match logEvent envOk dbRootDoc 1 "node_trashed" trashedPayloadEx with
  | Except.ok db1 => db1
  | Except.error _ => dbRootDoc

/-- Creation parameters for a root file named doc, owner 1. -/
def paramsDoc (i : String) : CreateNodeParams :=
  { id := i, ownerId := 1, parentId := none, name := "doc", nodeType := "file",
    sizeBytes := some 1, mimeType := some "text/plain" }

/-- Creation parameters for a file named doc inside folder P, owner 1. -/
def paramsDocP (i : String) : CreateNodeParams :=
  { id := i, ownerId := 1, parentId := some "P", name := "doc", nodeType := "file",
    sizeBytes := some 1, mimeType := some "text/plain" }

/-- Fixture: owner 1 has root folder P containing the file doc. -/
def dbPD : DB :=
  { nodes := [mkFolder "P" 1 none "P", mkFile "D" 1 (some "P") "doc" 1],
    shares := [], users := [mkUser 1 100 1], favorites := [], events := [],
    nextEventId := 1, now := 5 }

/-- Fixture: dbPD after `MoveNodeToTrash` of the file doc. -/
def dbPDTrashed : DB :=
  match moveNodeToTrash dbPD "D" 1 with
  | Except.ok (db1, _) => db1
  | Except.error _ => dbPD

/-- Fixture: a trashed file doc of owner 1, originally under folder P. -/
def trashedM : Node :=
  { id := "M", ownerId := 1, parentId := none, name := "doc", nodeType := "file",
    sizeBytes := some 1, mimeType := some "text/plain", createdAt := 0, modifiedAt := 0,
    deletedAt := some 3, originalParentId := some "P" }

/-- Fixture: a restore conflict — the trashed doc's slot under folder P has
been taken by a live sibling with the same name. -/
def dbConf : DB :=
  { nodes := [mkFolder "P" 1 none "P", trashedM, mkFile "R" 1 (some "P") "doc" 2],
    shares := [], users := [mkUser 1 100 3], favorites := [], events := [],
    nextEventId := 1, now := 9 }

/-- Creation parameters for a fresh root folder N of owner 1. -/
def paramsN : CreateNodeParams :=
  { id := "N", ownerId := 1, parentId := none, name := "N", nodeType := "folder",
    sizeBytes := none, mimeType := none }

/-- Fixture: dbPC after the folder-creation transaction for N committed. -/
def dbAfterCreateN : DB := (createFolderOp envOk dbPC 1 none paramsN).1

/-- Fixture: an upload whose size exceeds the remaining quota of owner 1. -/
def bigF : FileUpload := { filename := "big.txt", size := 200, mime := "text/plain" }

/-- Fixture: a small upload into folder P. -/
def upF : FileUpload := { filename := "new.txt", size := 4, mime := "text/plain" }

/-- Fixture: dbPD after the small upload committed. -/
def dbUp : DB := (uploadOneFile envOk dbPD [] 1 1 none (some "P") "U1" upF).1

/-- Hub fixture: user 7 owns three connections (one of them with a full
queue), user 8 owns a fourth. -/
def hubEx : Hub :=
  { clients := [{ cid := 1, userId := 7, send := [], cap := 2 },
                { cid := 2, userId := 7, send := ["old"], cap := 2 },
                { cid := 3, userId := 7, send := ["a", "b"], cap := 2 },
                { cid := 4, userId := 8, send := [], cap := 2 }] }

/-! ## Theorems -/

/-- Membership is preserved by sorted insertion of journal rows. -/
theorem mem_insertById {a e : EventRow} {l : List EventRow} :
    a ∈ insertById e l ↔ a = e ∨ a ∈ l := by
  induction l with
  | nil => simp [insertById]
  | cons x xs ih =>
    unfold insertById
    by_cases hle : e.id ≤ x.id
    · simp [hle]
    · simp only [hle, if_false, List.mem_cons, ih]
      tauto

/-- Membership is preserved by the ascending-id ordering. -/
theorem mem_sortById {a : EventRow} {l : List EventRow} :
    a ∈ sortById l ↔ a ∈ l := by
  induction l with
  | nil => simp [sortById]
  | cons x xs ih => simp [sortById, mem_insertById, ih]

/-- Characterization of a successful `MoveNodeToTrash`: the nodes list is the
pointwise trash update over the collected id set, the update introduced no
unique-index clash, every other column family is untouched, and the Bool
records whether any row was collected. -/
theorem trash_ok_spec {db : DB} {i : String} {o : Int} {db1 : DB} {b : Bool}
    (h : moveNodeToTrash db i o = Except.ok (db1, b)) :
    db1 = { db with nodes := db.nodes.map (fun n =>
        if (trashSet db i o).contains n.id then trashFields db.now n else n) } ∧
    hasClashB (db.nodes.map (fun n =>
        if (trashSet db i o).contains n.id then trashFields db.now n else n)) = false ∧
    b = db.nodes.any (fun n => (trashSet db i o).contains n.id) := by
  simp only [moveNodeToTrash] at h
  split at h
  · exact absurd h (by simp)
  · rename_i hcl
    simp only [Except.ok.injEq, Prod.mk.injEq] at h
    exact ⟨h.1.symm, by simpa using hcl, h.2.symm⟩

/-- `CreateNode` succeeds and appends the fresh row when no primary-key,
foreign-key or unique-name violation occurs. -/
theorem create_ok_of (db : DB) (arg : CreateNodeParams)
    (hpk : db.nodes.any (fun n => n.id == arg.id) = false)
    (howner : db.users.any (fun u => u.id == arg.ownerId) = true)
    (hfk : (match arg.parentId with
      | some p => !(db.nodes.any (fun n => n.id == p))
      | none => false) = false)
    (hclash : db.nodes.any (fun n => clashB (newNodeRow arg db.now) n) = false) :
    createNode db arg =
      Except.ok ({ db with nodes := db.nodes ++ [newNodeRow arg db.now] },
        newNodeRow arg db.now) := by
  unfold createNode
  rw [hpk, howner, hfk, hclash]
  rfl

/-- Mapping an id-preserving row update preserves the projected id list. -/
theorem ids_of_update (l : List Node) (g : Node → Node) (hg : ∀ n, (g n).id = n.id) :
    (l.map g).map (fun n => n.id) = l.map (fun n => n.id) := by
  rw [List.map_map]
  exact List.map_congr_left (fun n _ => hg n)

/-- The conditional trash update preserves row ids. -/
theorem trash_update_id (ids : List String) (now : Nat) (n : Node) :
    ((fun n => if ids.contains n.id then trashFields now n else n) n).id = n.id := by
  simp only [trashFields]
  split <;> rfl

/-- The child level of an empty level is empty. -/
theorem childLevel_nil (nodes : List Node) : childLevel nodes [] = [] := by
  unfold childLevel
  have h : (nodes.filter (fun n =>
      match n.parentId with
      | some p => ([] : List String).contains p
      | none => false)) = [] := by
    rw [List.filter_eq_nil_iff]
    intro m _
    cases hpar : m.parentId <;> simp [hpar]
  rw [h]
  rfl

/-- Membership in a child level. -/
theorem mem_childLevel {nodes : List Node} {level : List String} {x : String} :
    x ∈ childLevel nodes level ↔
      ∃ m ∈ nodes, m.id = x ∧ ∃ q, m.parentId = some q ∧ q ∈ level := by
  unfold childLevel
  simp only [List.mem_map, List.mem_filter]
  constructor
  · rintro ⟨m, ⟨hm, hpred⟩, hid⟩
    refine ⟨m, hm, hid, ?_⟩
    cases hpar : m.parentId with
    | none => rw [hpar] at hpred; simp at hpred
    | some q => rw [hpar] at hpred; exact ⟨q, rfl, by simpa using hpred⟩
  · rintro ⟨m, hm, hid, q, hpar, hq⟩
    exact ⟨m, ⟨hm, by simp [hpar]; simpa using hq⟩, hid⟩

/-- Iterating from an empty level stays empty. -/
theorem childIter_nil (nodes : List Node) (j : Nat) : childIter nodes j [] = [] := by
  induction j with
  | zero => rfl
  | succ j ih =>
    unfold childIter
    rw [childLevel_nil]
    exact ih

/-- The (j+1)-st level is the child level of the j-th level. -/
theorem childIter_succ_right (nodes : List Node) (j : Nat) (level : List String) :
    childIter nodes (j + 1) level = childLevel nodes (childIter nodes j level) := by
  induction j generalizing level with
  | zero => rfl
  | succ j ih =>
    show childIter nodes (j + 1) (childLevel nodes level) = _
    rw [ih (childLevel nodes level)]
    rfl

/-- The descendant accumulation is empty from an empty level. -/
theorem descendantsAux_nil (nodes : List Node) (fuel : Nat) :
    descendantsAux nodes fuel [] = [] := by
  cases fuel with
  | zero => rfl
  | succ fuel =>
    unfold descendantsAux
    rw [childLevel_nil]

/-- Reaching down from a level whose members all reach down from another
level composes. -/
theorem reachDown_trans {nodes : List Node} {level level2 : List String} {x : String}
    (hsub : ∀ y ∈ level2, ReachDown nodes level y) (h : ReachDown nodes level2 x) :
    ReachDown nodes level x := by
  induction h with
  | base hy => exact hsub _ hy
  | step m _ hm hpar ih => exact ReachDown.step m ih hm hpar

/-- Soundness of the accumulated descendants: every collected id is reachable
downward from the starting level. -/
theorem reachDown_of_mem_descendantsAux {nodes : List Node} :
    ∀ (fuel : Nat) (level : List String) (x : String),
      x ∈ descendantsAux nodes fuel level → ReachDown nodes level x := by
  intro fuel
  induction fuel with
  | zero => intro level x hx; simp [descendantsAux] at hx
  | succ fuel ih =>
    intro level x hx
    unfold descendantsAux at hx
    revert hx
    split
    · intro hx; simp at hx
    · rename_i c cs hcl
      intro hx
      have hlevel_reach : ∀ y ∈ c :: cs, ReachDown nodes level y := by
        intro y hy
        rw [← hcl] at hy
        obtain ⟨m, hm, hid, q, hpar, hq⟩ := mem_childLevel.mp hy
        exact hid ▸ ReachDown.step m (ReachDown.base hq) hm hpar
      rcases List.mem_append.mp hx with hx1 | hx2
      · exact hlevel_reach x hx1
      · exact reachDown_trans hlevel_reach (ih (c :: cs) x hx2)

/-- Every collected id lies in some iterated child level. -/
theorem mem_childIter_of_mem_descendantsAux {nodes : List Node} :
    ∀ (fuel : Nat) (level : List String) (x : String),
      x ∈ descendantsAux nodes fuel level →
      ∃ j, 1 ≤ j ∧ x ∈ childIter nodes j level := by
  intro fuel
  induction fuel with
  | zero => intro level x hx; simp [descendantsAux] at hx
  | succ fuel ih =>
    intro level x hx
    unfold descendantsAux at hx
    revert hx
    split
    · intro hx; simp at hx
    · rename_i c cs hcl
      intro hx
      rcases List.mem_append.mp hx with hx1 | hx2
      · exact ⟨1, le_refl 1, by show x ∈ childLevel nodes level; rw [hcl]; exact hx1⟩
      · obtain ⟨j, hj1, hj2⟩ := ih (c :: cs) x hx2
        refine ⟨j + 1, by omega, ?_⟩
        show x ∈ childIter nodes j (childLevel nodes level)
        rw [hcl]
        exact hj2

/-- Completeness of the accumulated descendants up to the fuel bound: an id
in the (j+1)-st level with j below the fuel is collected. -/
theorem mem_descendantsAux_of_mem_childIter {nodes : List Node} :
    ∀ (fuel : Nat) (level : List String) (j : Nat) (x : String), j < fuel →
      x ∈ childIter nodes (j + 1) level → x ∈ descendantsAux nodes fuel level := by
  intro fuel
  induction fuel with
  | zero => intro level j x hj _; exact absurd hj (Nat.not_lt_zero j)
  | succ fuel ih =>
    intro level j x hj hx
    unfold descendantsAux
    cases hcl : childLevel nodes level with
    | nil =>
      exfalso
      have : childIter nodes (j + 1) level = childIter nodes j [] := by
        rw [show childIter nodes (j + 1) level =
          childIter nodes j (childLevel nodes level) from rfl, hcl]
      rw [this, childIter_nil] at hx
      simp at hx
    | cons c cs =>
      have hstep : childIter nodes (j + 1) level = childIter nodes j (c :: cs) := by
        rw [show childIter nodes (j + 1) level =
          childIter nodes j (childLevel nodes level) from rfl, hcl]
      rw [hstep] at hx
      cases j with
      | zero => exact List.mem_append.mpr (Or.inl hx)
      | succ k =>
        exact List.mem_append.mpr (Or.inr (ih (c :: cs) k x (by omega) hx))

/-- Along an acyclic parent relation measured by a depth function, members of
the j-th level are at least j deeper than some member of the start level. -/
theorem childIter_depth {nodes : List Node} {depthf : String → Nat}
    (hacyc : ∀ m ∈ nodes, ∀ q, m.parentId = some q → depthf q < depthf m.id) :
    ∀ (j : Nat) (level : List String) (x : String), x ∈ childIter nodes j level →
      ∃ y ∈ level, depthf y + j ≤ depthf x := by
  intro j
  induction j with
  | zero => intro level x hx; exact ⟨x, hx, by omega⟩
  | succ j ih =>
    intro level x hx
    have hx2 : x ∈ childIter nodes j (childLevel nodes level) := hx
    obtain ⟨y, hy, hdy⟩ := ih (childLevel nodes level) x hx2
    obtain ⟨m, hm, hid, q, hpar, hq⟩ := mem_childLevel.mp hy
    have hqm : depthf q < depthf m.id := hacyc m hm q hpar
    exact ⟨q, hq, by rw [hid] at hqm; omega⟩

/-- Members of a positive level are ids of rows. -/
theorem childIter_mem_nodes {nodes : List Node} {level : List String} {j : Nat} {x : String}
    (hx : x ∈ childIter nodes (j + 1) level) : ∃ m ∈ nodes, m.id = x := by
  rw [childIter_succ_right] at hx
  obtain ⟨m, hm, hid, -⟩ := mem_childLevel.mp hx
  exact ⟨m, hm, hid⟩

/-- Closure of the accumulated descendants with full fuel: the child of a
collected (or starting) id is collected. -/
theorem descendantsAux_closed {nodes : List Node} {depthf : String → Nat}
    (hacyc : ∀ m ∈ nodes, ∀ q, m.parentId = some q → depthf q < depthf m.id)
    (hbound : ∀ m ∈ nodes, depthf m.id < nodes.length)
    {level : List String} {q : String} (m : Node) (hm : m ∈ nodes)
    (hpar : m.parentId = some q)
    (hq : q ∈ level ∨ q ∈ descendantsAux nodes nodes.length level) :
    m.id ∈ descendantsAux nodes nodes.length level := by
  have hlen : 0 < nodes.length := List.length_pos.mpr (fun h => by rw [h] at hm; simp at hm)
  rcases hq with hq1 | hq2
  · apply mem_descendantsAux_of_mem_childIter nodes.length level 0 m.id hlen
    show m.id ∈ childLevel nodes level
    exact mem_childLevel.mpr ⟨m, hm, rfl, q, hpar, hq1⟩
  · obtain ⟨j, hj1, hj2⟩ := mem_childIter_of_mem_descendantsAux nodes.length level q hq2
    have hmem : m.id ∈ childIter nodes (j + 1) level := by
      rw [childIter_succ_right]
      exact mem_childLevel.mpr ⟨m, hm, rfl, q, hpar, hj2⟩
    obtain ⟨mq, hmq, hmqid⟩ := childIter_mem_nodes (j := j - 1)
      (by rw [show j - 1 + 1 = j from by omega]; exact hj2)
    have hqb : depthf q < nodes.length := hmqid ▸ hbound mq hmq
    obtain ⟨y, -, hdy⟩ := childIter_depth hacyc j level q hj2
    exact mem_descendantsAux_of_mem_childIter nodes.length level j m.id (by omega) hmem

/-- Every member of the trash base equals the requested id. -/
theorem trashBase_all {db : DB} {i : String} {o : Int} :
    ∀ y ∈ trashBase db i o, y = i := by
  intro y hy
  unfold trashBase at hy
  obtain ⟨m, hm, hid⟩ := List.mem_map.mp hy
  have := (List.mem_filter.mp hm).2
  simp only [Bool.and_eq_true, beq_iff_eq] at this
  rw [← hid]
  exact this.1.1

/-- Soundness of the trash set: every collected id is a descendant of the
requested id. -/
theorem descendantOf_of_mem_trashSet {db : DB} {i : String} {o : Int} {x : String}
    (hx : x ∈ trashSet db i o) : DescendantOf db.nodes i x := by
  unfold trashSet at hx
  have hconv : ∀ y, ReachDown db.nodes (trashBase db i o) y → DescendantOf db.nodes i y := by
    intro y hy
    induction hy with
    | base hz => rename_i z; exact trashBase_all z hz ▸ DescendantOf.refl
    | step m _ hm hpar ih => exact DescendantOf.step m ih hm hpar
  rcases List.mem_append.mp hx with hx1 | hx2
  · exact trashBase_all x hx1 ▸ DescendantOf.refl
  · exact hconv x (reachDown_of_mem_descendantsAux db.nodes.length (trashBase db i o) x hx2)

/-- Completeness of the trash set under an acyclic, depth-bounded parent
relation: when the base is nonempty, every descendant of the requested id is
collected. -/
theorem mem_trashSet_of_descendantOf {db : DB} {i : String} {o : Int} {depthf : String → Nat}
    (hacyc : ∀ m ∈ db.nodes, ∀ q, m.parentId = some q → depthf q < depthf m.id)
    (hbound : ∀ m ∈ db.nodes, depthf m.id < db.nodes.length)
    (hbase : i ∈ trashBase db i o) {x : String}
    (hx : DescendantOf db.nodes i x) : x ∈ trashSet db i o := by
  induction hx with
  | refl => exact List.mem_append.mpr (Or.inl hbase)
  | step m hq hm hpar ih =>
    rename_i q
    apply List.mem_append.mpr
    refine Or.inr (descendantsAux_closed hacyc hbound m hm hpar ?_)
    rcases List.mem_append.mp ih with h1 | h2
    · exact Or.inl h1
    · exact Or.inr h2

/-- The unique-index clash predicate as a conjunction of field equalities. -/
theorem clashB_eq_true_iff {a b : Node} :
    clashB a b = true ↔ a.ownerId = b.ownerId ∧ a.name = b.name ∧ a.parentId = b.parentId := by
  simp [clashB, Bool.and_eq_true, beq_iff_eq, and_assoc]

/-- The clash predicate is symmetric at the truth level. -/
theorem clashB_symm_true {a b : Node} (h : clashB a b = true) : clashB b a = true := by
  rw [clashB_eq_true_iff] at h ⊢
  exact ⟨h.1.symm, h.2.1.symm, h.2.2.symm⟩

/-- The clash predicate only depends on the (owner, name, parent) triple of
its first argument. -/
theorem clashB_first_congr {a c b : Node} (ho : a.ownerId = c.ownerId)
    (hn : a.name = c.name) (hp : a.parentId = c.parentId) :
    clashB a b = clashB c b := by
  unfold clashB
  rw [ho, hn, hp]

/-- The row list passes the unique name indexes iff no ordered pair of
distinct positions clashes. -/
theorem hasClashB_eq_false_iff {l : List Node} :
    hasClashB l = false ↔ l.Pairwise (fun a b => clashB a b = false) := by
  induction l with
  | nil => simp [hasClashB]
  | cons x t ih =>
    rw [show hasClashB (x :: t) = (t.any (fun b => clashB x b) || hasClashB t) from rfl,
      Bool.or_eq_false_iff, List.any_eq_false, List.pairwise_cons, ← ih]
    constructor
    · rintro ⟨h1, h2⟩
      exact ⟨fun b hb => Bool.eq_false_iff.mpr (h1 b hb), h2⟩
    · rintro ⟨h1, h2⟩
      exact ⟨fun b hb => Bool.eq_false_iff.mp (h1 b hb), h2⟩

/-- Two rows at distinct positions that clash make the whole list clash. -/
theorem hasClashB_true_of_mem {l : List Node} {a b : Node} (ha : a ∈ l) (hb : b ∈ l)
    (hne : a.id ≠ b.id) (hcl : clashB a b = true) : hasClashB l = true := by
  induction l with
  | nil => simp at ha
  | cons x t ih =>
    rw [show hasClashB (x :: t) = (t.any (fun b => clashB x b) || hasClashB t) from rfl,
      Bool.or_eq_true]
    rcases List.mem_cons.mp ha with hax | hat
    · rcases List.mem_cons.mp hb with hbx | hbt
      · exact absurd (hax ▸ hbx ▸ rfl) hne
      · exact Or.inl (List.any_eq_true.mpr ⟨b, hbt, hax ▸ hcl⟩)
    · rcases List.mem_cons.mp hb with hbx | hbt
      · exact Or.inl (List.any_eq_true.mpr ⟨a, hat, hbx ▸ clashB_symm_true hcl⟩)
      · exact Or.inr (ih hat hbt)

/-- In a list with pairwise-distinct ids, a predicate that pins the id finds
exactly the distinguished row. -/
theorem find?_pred_eq_some {l : List Node} {a : Node} (p : Node → Bool)
    (hnodup : (l.map (fun m => m.id)).Nodup) (ha : a ∈ l) (hpa : p a = true)
    (hp : ∀ m, p m = true → m.id = a.id) : l.find? p = some a := by
  induction l with
  | nil => simp at ha
  | cons x t ih =>
    rw [List.map_cons, List.nodup_cons] at hnodup
    rcases List.mem_cons.mp ha with hax | hat
    · subst hax
      rw [List.find?_cons_of_pos _ hpa]
    · cases hpx : p x with
      | true =>
        exact absurd (List.mem_map.mpr ⟨a, hat, (hp x hpx).symm⟩) hnodup.1
      | false =>
        rw [List.find?_cons_of_neg _ (by rw [hpx]; exact Bool.false_ne_true)]
        exact ih hnodup.2 hat

/-- Rows with equal ids in a list with pairwise-distinct ids are equal. -/
theorem eq_of_mem_same_id {l : List Node} {a b : Node}
    (hnodup : (l.map (fun m => m.id)).Nodup) (ha : a ∈ l) (hb : b ∈ l)
    (hid : a.id = b.id) : a = b :=
  List.inj_on_of_nodup_map hnodup ha hb hid

/-- Restoring an immediately-trashed live row reproduces it exactly. -/
theorem restore_trash_cancel {now : Nat} {n : Node} (hlive : n.deletedAt = none)
    (horig : n.originalParentId = none) :
    restoreFields (trashFields now n) = n := by
  cases n with
  | mk id ownerId parentId name nodeType sizeBytes mimeType createdAt modifiedAt
      deletedAt originalParentId =>
    simp only [restoreFields, trashFields] at *
    simp [hlive, horig]

/-- A live node owned by the caller is in the base of its own trash set. -/
theorem id_mem_trashSet_self {db : DB} {A : Node} {o : Int}
    (hA : A ∈ db.nodes) (hlive : A.deletedAt = none) (ho : A.ownerId = o) :
    A.id ∈ trashSet db A.id o := by
  unfold trashSet trashBase
  apply List.mem_append_left
  exact List.mem_map.mpr ⟨A, List.mem_filter.mpr ⟨hA, by simp [hlive, ho]⟩, rfl⟩

/-- Claim C9: `PublishEvent` attempts a non-blocking enqueue onto the bounded
outbound queue of every currently registered connection of the target user
and of no other user: every connection of the user with queue room receives
exactly one appended copy of the payload, a connection with a full queue is
left unchanged (the message is dropped, the publisher does not block),
connections of other users are untouched, publishing to a user with no
registered connections is a no-op, and no connection is added or removed. -/
theorem c9_hub_publish_fanout (h : Hub) (u : Int) (d : String) :
    (∀ c ∈ h.clients, c.userId = u → c.send.length < c.cap →
      { c with send := c.send ++ [d] } ∈ (publishEvent h u d).clients) ∧
    (∀ c ∈ h.clients, c.userId = u → ¬ c.send.length < c.cap →
      c ∈ (publishEvent h u d).clients) ∧
    (∀ c ∈ h.clients, c.userId ≠ u → c ∈ (publishEvent h u d).clients) ∧
    ((∀ c ∈ h.clients, c.userId ≠ u) → publishEvent h u d = h) ∧
    (publishEvent h u d).clients.length = h.clients.length := by
  refine ⟨?_, ?_, ?_, ?_, ?_⟩
  · intro c hc hu hroom
    exact List.mem_map.mpr ⟨c, hc, by simp [hu, hroom]⟩
  · intro c hc hu hfull
    exact List.mem_map.mpr ⟨c, hc, by simp [hu, hfull]⟩
  · intro c hc hu
    exact List.mem_map.mpr ⟨c, hc, by simp [hu]⟩
  · intro hall
    unfold publishEvent
    have hmap : h.clients.map (fun c => if c.userId == u then
        (if c.send.length < c.cap then { c with send := c.send ++ [d] } else c) else c) =
        h.clients.map id := by
      apply List.map_congr_left
      intro c hc
      simp [hall c hc]
    rw [hmap, List.map_id]
  · simp [publishEvent]

/-- Witness for C9 on the concrete hub fixture: of the three connections of
user 7, the two with room get the payload appended and the full one keeps its
queue; user 8's connection is untouched; publishing to user 9, who has no
connections, changes nothing. -/
theorem c9_hub_publish_fanout_witness :
    ({ cid := 1, userId := 7, send := ["x"], cap := 2 } : HubClient) ∈
      (publishEvent hubEx 7 "x").clients ∧
    ({ cid := 2, userId := 7, send := ["old", "x"], cap := 2 } : HubClient) ∈
      (publishEvent hubEx 7 "x").clients ∧
    ({ cid := 3, userId := 7, send := ["a", "b"], cap := 2 } : HubClient) ∈
      (publishEvent hubEx 7 "x").clients ∧
    ({ cid := 4, userId := 8, send := [], cap := 2 } : HubClient) ∈
      (publishEvent hubEx 7 "x").clients ∧
    publishEvent hubEx 9 "x" = hubEx := by
  refine ⟨?_, ?_, ?_, ?_, ?_⟩
  · exact (c9_hub_publish_fanout hubEx 7 "x").1
      { cid := 1, userId := 7, send := [], cap := 2 } (by decide) rfl (by decide)
  · exact (c9_hub_publish_fanout hubEx 7 "x").1
      { cid := 2, userId := 7, send := ["old"], cap := 2 } (by decide) rfl (by decide)
  · exact (c9_hub_publish_fanout hubEx 7 "x").2.1
      { cid := 3, userId := 7, send := ["a", "b"], cap := 2 } (by decide) rfl (by decide)
  · exact (c9_hub_publish_fanout hubEx 7 "x").2.2.1
      { cid := 4, userId := 8, send := [], cap := 2 } (by decide) (by decide)
  · exact (c9_hub_publish_fanout hubEx 9 "x").2.2.2.1 (by decide)

/-- Counterexample to claim C10: the spec says the payload field returned to
a poller for a `node_trashed` event is exactly the `{id, parentID}` pair that
was passed to the journal append; on the embedded code the returned payload
field is the `{event_type, payload}` envelope wrapping that pair, which is a
different JSON value. -/
theorem c10_counterexample :
    getEventsSince dbLogged 1 0 =
      [{ id := 1, eventType := "node_trashed", eventTime := 5,
         payload := eventEnvelope "node_trashed" trashedPayloadEx }] ∧
    eventEnvelope "node_trashed" trashedPayloadEx ≠ trashedPayloadEx := by
  constructor
  · rfl
  · intro hcontra
    simp [eventEnvelope, trashedPayloadEx] at hcontra

/-- Claim C10 as amended: a journal append for recipient u with event type t
and payload p creates one row whose eventType column is t and whose payload
column is the `{event_type = t, payload = p}` envelope (not p itself), and
every record `readSince` returns to a poller is the verbatim projection
`{id, eventType, eventTime, payload}` of such a stored row of that user with
id past the cursor. -/
theorem c10_event_payload_is_envelope (env : Env) (db : DB) (u : Int) (t : String) (p : Json)
    (henv : env.journalFails = false) :
    ∃ db1, logEvent env db u t p = Except.ok db1 ∧
      db1.events = db.events ++
        [EventRow.mk db.nextEventId u t db.now (eventEnvelope t p)] ∧
      ∀ s e, e ∈ getEventsSince db1 u s →
        ∃ r, r ∈ db1.events ∧ r.userId = u ∧ s < r.id ∧
          e = Event.mk r.id r.eventType r.eventTime r.payload := by
  refine ⟨{ db with
      events := db.events ++ [EventRow.mk db.nextEventId u t db.now (eventEnvelope t p)],
      nextEventId := db.nextEventId + 1 }, by simp [logEvent, henv], rfl, ?_⟩
  intro s e he
  unfold getEventsSince at he
  obtain ⟨r, hr, hre⟩ := List.mem_map.mp he
  have hr2 := List.mem_of_mem_take hr
  have hr3 := mem_sortById.mp hr2
  have hr4 := List.mem_filter.mp hr3
  have hpred := hr4.2
  simp only [Bool.and_eq_true, beq_iff_eq, decide_eq_true_eq] at hpred
  exact ⟨r, hr4.1, hpred.1, hpred.2, hre.symm⟩

/-- Witness for the amended C10 on a concrete journal append. -/
theorem c10_event_payload_is_envelope_witness :
    ∃ db1, logEvent envOk dbRootDoc 1 "node_trashed" trashedPayloadEx = Except.ok db1 ∧
      db1.events = dbRootDoc.events ++
        [EventRow.mk dbRootDoc.nextEventId 1 "node_trashed" dbRootDoc.now
          (eventEnvelope "node_trashed" trashedPayloadEx)] ∧
      ∀ s e, e ∈ getEventsSince db1 1 s →
        ∃ r, r ∈ db1.events ∧ r.userId = 1 ∧ s < r.id ∧
          e = Event.mk r.id r.eventType r.eventTime r.payload :=
  c10_event_payload_is_envelope envOk dbRootDoc 1 "node_trashed" trashedPayloadEx rfl

/-- Counterexample to claim C7: the spec says the write-access check is never
true for a root path (nil target parent) unless the principal is the owner of
the root being operated on; on the embedded code `CheckWritePermission`
returns true unconditionally for a nil parent, so user 2 — who holds only a
read share on user 1's root folder A — passes the full write gate of
`DeleteNodeHandler` on A even though user 2 is not its owner. -/
theorem c7_counterexample :
    checkWritePermission dbShared 2 none = true ∧
    getNodeIfAccessible dbShared "A" 2 = some (mkFolder "A" 1 none "A") ∧
    deleteNodeGate dbShared 2 "A" = true ∧
    (mkFolder "A" 1 none "A").ownerId ≠ 2 ∧
    dbShared.shares.all (fun s => s.permissions != "write") = true := by
  refine ⟨rfl, by decide, rfl, by decide, by decide⟩

/-- Claim C7 as amended: for a nil targetParentID the check returns true
unconditionally, for every principal (nothing restricts it to an owner acting
on their own root); for a non-nil targetParentID it returns true iff the
principal owns some node on the ancestor chain starting at targetParentID
(inclusive) or some node on that chain carries a write-permission share to
the principal; in particular it is true for the owner of the chain whenever
the chain is nonempty. -/
theorem c7_check_write_permission (db : DB) (u : Int) :
    (checkWritePermission db u none = true) ∧
    (∀ p, checkWritePermission db u (some p) = true ↔
      ((∃ n ∈ nodeParents db p, n.ownerId = u) ∨
        (∃ s ∈ db.shares, s.recipientId = u ∧ s.permissions = "write" ∧
          ∃ m ∈ nodeParents db p, m.id = s.nodeId))) ∧
    (∀ p n, n ∈ nodeParents db p → n.ownerId = u →
      checkWritePermission db u (some p) = true) := by
  refine ⟨rfl, ?_, ?_⟩
  · intro p
    unfold checkWritePermission
    simp only [Bool.or_eq_true, List.any_eq_true, Bool.and_eq_true, beq_iff_eq, and_assoc]
  · intro p n hn ho
    have : (nodeParents db p).any (fun m => m.ownerId == u) = true :=
      List.any_eq_true.mpr ⟨n, hn, by simp [ho]⟩
    simp [checkWritePermission, this]

/-- Witness for the amended C7: user 2 (not an owner) gets write permission
on the nil path, the chain characterization applies to folder B of dbShared,
and owner 1 has write permission above their own folder B. -/
theorem c7_check_write_permission_witness :
    checkWritePermission dbShared 2 none = true ∧
    (checkWritePermission dbShared 2 (some "B") = true ↔
      ((∃ n ∈ nodeParents dbShared "B", n.ownerId = 2) ∨
        (∃ s ∈ dbShared.shares, s.recipientId = 2 ∧ s.permissions = "write" ∧
          ∃ m ∈ nodeParents dbShared "B", m.id = s.nodeId))) ∧
    checkWritePermission dbShared 1 (some "B") = true := by
  refine ⟨(c7_check_write_permission dbShared 2).1,
    (c7_check_write_permission dbShared 2).2.1 "B",
    (c7_check_write_permission dbShared 1).2.2 "B" (mkFolder "B" 1 (some "A") "B")
      (by decide) rfl⟩

/-- Counterexample to claim C5: the spec says moving folder F into any node D
reachable by following parent links from F to the root fails with the
invalid-operation error and leaves F's parent unchanged; on the embedded code
the cycle guard walks child links (the subtree of F), so moving F into its
grandparent G — an ancestor, in F's parent chain — succeeds and F's parent
becomes G. -/
theorem c5_counterexample :
    (nodeParents dbChain idF).map (fun n => n.id) = [idF, idP, idG] ∧
    isDescendantOf dbChain idF idG = false ∧
    (moveNodeFlow envOk dbChain 1 idF idG).2 = none ∧
    ((moveNodeFlow envOk dbChain 1 idF idG).1.nodes.find? (fun n => n.id == idF)).map
      (fun n => n.parentId) = some (some idG) := by
  exact ⟨rfl, rfl, rfl, rfl⟩

/-- Claim C5 as amended: the cycle guard of the move flow blocks moving a
folder F into a destination D when F is reachable by following parent links
from D — that is, when D is F itself or one of F's descendants
(`IsDescendantOf F D`) — failing with the invalid-operation error and leaving
the state (in particular F's parent) unchanged even though every other gate
of the flow passes; and the descendant check used as the guard is reflexive:
`isDescendantOf n n` is true for every node. -/
theorem c5_cycle_guard (env : Env) (db : DB) (actor : Int) (nodeId reqParent : String)
    (nF nD : Node)
    (hnode : getNodeIfAccessible db nodeId actor = some nF)
    (hfolder : nF.nodeType = "folder")
    (hlen : reqParent.length = 21)
    (hdest : getNodeIfAccessible db reqParent actor = some nD)
    (howner : nF.ownerId = nD.ownerId)
    (hperm1 : checkWritePermission db actor nF.parentId = true)
    (hperm2 : checkWritePermission db actor (some reqParent) = true)
    (hdesc : isDescendantOf db nodeId reqParent = true) :
    moveNodeFlow env db actor nodeId reqParent = (db, some ApiError.invalidOperation) ∧
    (∀ (db2 : DB) (x : String), isDescendantOf db2 x x = true) := by
  constructor
  · have hne : reqParent ≠ "root" := by
      intro hcontra
      rw [hcontra] at hlen
      exact absurd hlen (by decide)
    unfold moveNodeFlow
    rw [hnode]
    simp [hne, hlen, hdest, howner, hperm1, hperm2, hdesc, hfolder]
  · intro db2 x
    simp [isDescendantOf]

/-- Witness for the amended C5 on the concrete chain: moving the root folder
G into its own descendant F is rejected with the invalid-operation error with
the database unchanged, and the guard is reflexive on G. -/
theorem c5_cycle_guard_witness :
    moveNodeFlow envOk dbChain 1 idG idF = (dbChain, some ApiError.invalidOperation) ∧
    isDescendantOf dbChain idG idG = true := by
  have h := c5_cycle_guard envOk dbChain 1 idG idF
    (mkFolder idG 1 none "G") (mkFolder idF 1 (some idP) "F")
    (by decide) rfl (by decide) (by decide) rfl rfl rfl (by decide)
  exact ⟨h.1, h.2 dbChain idG⟩

/-- Counterexample to claim C6: at a root location (nil parent) a trashed
node still blocks creation.  With a live root file doc of owner 1, creating a
second root doc fails with the unique violation (as the claim says); but
after trashing the first, creating a third root doc still fails with the
unique violation — because trashing left the row with a null parent and its
old name, so it still occupies the partial index `unique_name_in_root` —
where the claim asserts the creation succeeds. -/
theorem c6_counterexample :
    createNode dbRootDoc (paramsDoc "B") = Except.error TxError.uniqueViolation ∧
    moveNodeToTrash dbRootDoc "A" 1 = Except.ok (dbRootDocTrashed, true) ∧
    createNode dbRootDocTrashed (paramsDoc "Cc") = Except.error TxError.uniqueViolation := by
  exact ⟨rfl, rfl, rfl⟩

/-- Claim C6 as amended: (i) creating a node whose (owner, parent, name)
slot is held by a live sibling fails with the unique violation (surfaced as
Conflict); (ii) at a non-root location, once the only node holding that slot
has been successfully trashed, a fresh creation at the same slot succeeds —
a trashed node never blocks creation inside a folder, because trashing
cleared its parent; (iii) at a root location the trashed node still has a
null parent and its old name, so it still occupies the root-scope unique
index and a fresh creation with the same name at the root of the same owner
fails with the unique violation. -/
theorem c6_name_uniqueness :
    (∀ (db : DB) (arg : CreateNodeParams),
      (∃ u ∈ db.users, u.id = arg.ownerId) →
      (∀ p, arg.parentId = some p → ∃ r ∈ db.nodes, r.id = p) →
      (∃ r ∈ db.nodes, r.ownerId = arg.ownerId ∧ r.name = arg.name ∧
        r.parentId = arg.parentId ∧ r.deletedAt = none) →
      createNode db arg = Except.error TxError.uniqueViolation) ∧
    (∀ (db db1 : DB) (A : Node) (arg : CreateNodeParams) (p : String),
      A ∈ db.nodes → A.deletedAt = none →
      arg.ownerId = A.ownerId → arg.name = A.name →
      arg.parentId = some p → A.parentId = some p →
      (∀ r ∈ db.nodes, r.ownerId = arg.ownerId → r.name = arg.name →
        r.parentId = arg.parentId → r = A) →
      (∀ r ∈ db.nodes, r.id ≠ arg.id) →
      (∃ u ∈ db.users, u.id = arg.ownerId) →
      (∃ r ∈ db.nodes, r.id = p) →
      moveNodeToTrash db A.id A.ownerId = Except.ok (db1, true) →
      ∃ db2 row, createNode db1 arg = Except.ok (db2, row)) ∧
    (∀ (db db1 : DB) (A : Node) (arg : CreateNodeParams),
      A ∈ db.nodes → A.deletedAt = none →
      arg.ownerId = A.ownerId → arg.name = A.name →
      arg.parentId = none → A.parentId = none →
      (∃ u ∈ db.users, u.id = arg.ownerId) →
      moveNodeToTrash db A.id A.ownerId = Except.ok (db1, true) →
      createNode db1 arg = Except.error TxError.uniqueViolation) := by
  refine ⟨?_, ?_, ?_⟩
  · -- (i) a live holder of the slot blocks the insert
    rintro db arg ⟨u, hu, huid⟩ hpar ⟨r, hr, hro, hrn, hrp, -⟩
    unfold createNode
    by_cases hpk : db.nodes.any (fun n => n.id == arg.id) = true
    · simp [hpk]
    · rw [Bool.not_eq_true] at hpk
      have howner : db.users.any (fun u2 => u2.id == arg.ownerId) = true :=
        List.any_eq_true.mpr ⟨u, hu, by simp [huid]⟩
      have hclash : db.nodes.any (fun n => clashB (newNodeRow arg db.now) n) = true :=
        List.any_eq_true.mpr ⟨r, hr, by simp [clashB, newNodeRow, hro, hrn, hrp]⟩
      cases harg : arg.parentId with
      | some p =>
        obtain ⟨rp, hrp2, hrpid⟩ := hpar p harg
        have hfk : db.nodes.any (fun n => n.id == p) = true :=
          List.any_eq_true.mpr ⟨rp, hrp2, by simp [hrpid]⟩
        simp [hpk, howner, harg, hfk, hclash]
      | none =>
        simp [hpk, howner, harg, hclash]
  · -- (ii) after trashing the unique holder, a non-root slot is free again
    intro db db1 A arg p hA hAlive hao han hap hApar honly hfresh hu hp htrash
    obtain ⟨hdb1, -, -⟩ := trash_ok_spec htrash
    subst hdb1
    obtain ⟨u, hu2, huid⟩ := hu
    obtain ⟨rp, hrp2, hrpid⟩ := hp
    have hAset : A.id ∈ trashSet db A.id A.ownerId :=
      id_mem_trashSet_self hA hAlive rfl
    have gid : ∀ n : Node,
        (if (trashSet db A.id A.ownerId).contains n.id then trashFields db.now n else n).id =
          n.id := by
      intro n
      split <;> rfl
    have hpk : (db.nodes.map (fun n =>
        if (trashSet db A.id A.ownerId).contains n.id then trashFields db.now n else n)).any
        (fun n => n.id == arg.id) = false := by
      rw [List.any_map, List.any_eq_false]
      intro n hn
      simp only [Function.comp_apply, gid n, beq_iff_eq]
      exact hfresh n hn
    have howner : db.users.any (fun u2 => u2.id == arg.ownerId) = true :=
      List.any_eq_true.mpr ⟨u, hu2, by simp [huid]⟩
    have hfk : (db.nodes.map (fun n =>
        if (trashSet db A.id A.ownerId).contains n.id then trashFields db.now n else n)).any
        (fun n => n.id == p) = true := by
      rw [List.any_map]
      refine List.any_eq_true.mpr ⟨rp, hrp2, ?_⟩
      simp only [Function.comp_apply]
      rw [gid rp, hrpid]
      exact beq_self_eq_true p
    have hclash : (db.nodes.map (fun n =>
        if (trashSet db A.id A.ownerId).contains n.id then trashFields db.now n else n)).any
        (fun n => clashB (newNodeRow arg db.now) n) = false := by
      rw [List.any_map, List.any_eq_false]
      intro n hn
      simp only [Function.comp_apply]
      by_cases hc : (trashSet db A.id A.ownerId).contains n.id = true
      · rw [if_pos hc]
        simp [clashB, trashFields, newNodeRow, hap]
      · rw [if_neg hc]
        intro hcl
        simp only [clashB, newNodeRow, Bool.and_eq_true, beq_iff_eq] at hcl
        have hnA : n = A := honly n hn hcl.1.1.symm hcl.1.2.symm hcl.2.symm
        rw [hnA] at hc
        exact hc (by simpa using hAset)
    have hfkm : (match arg.parentId with
        | some q => !((db.nodes.map (fun n =>
            if (trashSet db A.id A.ownerId).contains n.id then trashFields db.now n
            else n)).any (fun n => n.id == q))
        | none => false) = false := by
      simp only [hap]
      rw [hfk]
      rfl
    exact ⟨_, _, create_ok_of _ arg hpk howner hfkm hclash⟩
  · -- (iii) the trashed holder of a root slot still blocks the insert
    intro db db1 A arg hA hAlive hao han hap hApar hu htrash
    obtain ⟨hdb1, -, -⟩ := trash_ok_spec htrash
    subst hdb1
    obtain ⟨u, hu2, huid⟩ := hu
    unfold createNode
    by_cases hpk : (db.nodes.map (fun n =>
        if (trashSet db A.id A.ownerId).contains n.id then trashFields db.now n else n)).any
        (fun n => n.id == arg.id) = true
    · rw [hpk]
      simp
    · rw [Bool.not_eq_true] at hpk
      have howner : db.users.any (fun u2 => u2.id == arg.ownerId) = true :=
        List.any_eq_true.mpr ⟨u, hu2, by simp [huid]⟩
      have hAset : A.id ∈ trashSet db A.id A.ownerId :=
        id_mem_trashSet_self hA hAlive rfl
      have hclash : (db.nodes.map (fun n =>
          if (trashSet db A.id A.ownerId).contains n.id then trashFields db.now n else n)).any
          (fun n => clashB (newNodeRow arg db.now) n) = true := by
        rw [List.any_map]
        refine List.any_eq_true.mpr ⟨A, hA, ?_⟩
        have hcA : (trashSet db A.id A.ownerId).contains A.id = true := by
          simpa using hAset
        simp only [Function.comp_apply, hcA, if_pos]
        simp [clashB, trashFields, newNodeRow, hao, han, hap, hApar]
      simp [hpk, howner, hap, hclash]
      intro _
      rw [List.any_map, List.any_eq_true] at hclash
      obtain ⟨x, hx, hxc⟩ := hclash
      exact ⟨x, hx, by simpa using hxc⟩

/-- Witness for the amended C6: a second root doc is blocked by the live one;
inside folder P a fresh doc succeeds after the old one was trashed; at the
root the trashed doc still blocks a fresh root doc. -/
theorem c6_name_uniqueness_witness :
    createNode dbRootDoc (paramsDoc "B") = Except.error TxError.uniqueViolation ∧
    (∃ db2 row, createNode dbPDTrashed (paramsDocP "E") = Except.ok (db2, row)) ∧
    createNode dbRootDocTrashed (paramsDoc "Cc") = Except.error TxError.uniqueViolation := by
  refine ⟨?_, ?_, ?_⟩
  · exact c6_name_uniqueness.1 dbRootDoc (paramsDoc "B") (by decide)
      (fun p hp => by simp [paramsDoc] at hp) (by decide)
  · exact c6_name_uniqueness.2.1 dbPD dbPDTrashed (mkFile "D" 1 (some "P") "doc" 1)
      (paramsDocP "E") "P" (by decide) rfl rfl rfl rfl rfl (by decide) (by decide)
      (by decide) (by decide) rfl
  · exact c6_name_uniqueness.2.2 dbRootDoc dbRootDocTrashed (mkFile "A" 1 none "doc" 3)
      (paramsDoc "Cc") (by decide) rfl rfl rfl rfl rfl (by decide) rfl

/-- Counterexample to claim C3: the spec says the original-parent bookkeeping
(copy parent into original parent, clear parent) is applied only at the
trashed root, so descendants keep their parent links; on the embedded code
the UPDATE applies the bookkeeping to every collected row, so after trashing
root folder P its child C has a cleared parent and original parent P — not an
intact parent link. -/
theorem c3_counterexample :
    moveNodeToTrash dbPC "P" 1 = Except.ok (dbPCTrashed, true) ∧
    dbPCTrashed.nodes.find? (fun n => n.id == "C") =
      some { id := "C", ownerId := 1, parentId := none, name := "C", nodeType := "folder",
             sizeBytes := none, mimeType := none, createdAt := 0, modifiedAt := 0,
             deletedAt := some 5, originalParentId := some "P" } ∧
    (dbPCTrashed.nodes.find? (fun n => n.id == "C")).map
      (fun n => (n.parentId, n.originalParentId)) ≠ some (some "P", none) := by
  exact ⟨rfl, by decide, by decide⟩

/-- Claim C3 as amended: a successful trash of node id i marks, in one atomic
update, every row whose id is i or reachable from i by child links — under
the live-tree acyclicity expressed by a depth measure — as deleted with the
current timestamp, and applies the original-parent bookkeeping (copy the
current parent into original parent, clear the parent) at EVERY trashed
member, root and descendants alike, so internal linkage between trashed
members survives in original-parent, not in parent; rows outside the subtree
are untouched. -/
theorem c3_trash_marks_subtree (db : DB) (i : String) (o : Int) (db1 : DB)
    (depthf : String → Nat)
    (hacyc : ∀ m ∈ db.nodes, ∀ q, m.parentId = some q → depthf q < depthf m.id)
    (hbound : ∀ m ∈ db.nodes, depthf m.id < db.nodes.length)
    (htrash : moveNodeToTrash db i o = Except.ok (db1, true)) :
    (∀ m ∈ db.nodes, DescendantOf db.nodes i m.id →
      { m with deletedAt := some db.now, originalParentId := m.parentId,
               parentId := none } ∈ db1.nodes) ∧
    (∀ m ∈ db.nodes, ¬ DescendantOf db.nodes i m.id → m ∈ db1.nodes) := by
  obtain ⟨hdb1, -, hb⟩ := trash_ok_spec htrash
  subst hdb1
  have hbase : i ∈ trashBase db i o := by
    have hb2 := hb.symm
    rw [List.any_eq_true] at hb2
    obtain ⟨n, -, hn2⟩ := hb2
    have hne : trashSet db i o ≠ [] := by
      intro hnil
      rw [hnil] at hn2
      simp at hn2
    have hbne : trashBase db i o ≠ [] := by
      intro hnil
      apply hne
      unfold trashSet
      rw [hnil, descendantsAux_nil]
      rfl
    obtain ⟨y, hy⟩ := List.exists_mem_of_ne_nil _ hbne
    exact trashBase_all y hy ▸ hy
  constructor
  · intro m hm hdesc
    have hset : m.id ∈ trashSet db i o :=
      mem_trashSet_of_descendantOf hacyc hbound hbase hdesc
    have hcon : (trashSet db i o).contains m.id = true := by simpa using hset
    refine List.mem_map.mpr ⟨m, hm, ?_⟩
    rw [if_pos hcon]
    rfl
  · intro m hm hdesc
    have hset : m.id ∉ trashSet db i o := fun hx =>
      hdesc (descendantOf_of_mem_trashSet hx)
    have hcon : (trashSet db i o).contains m.id = false := by
      rw [Bool.eq_false_iff]
      intro hc
      exact hset (by simpa using hc)
    refine List.mem_map.mpr ⟨m, hm, ?_⟩
    rw [if_neg (by rw [hcon]; exact Bool.false_ne_true)]

/-- Witness for the amended C3 on the concrete two-node tree: after trashing
root folder P, its child C appears deleted at time 5 with parent cleared and
original parent P. -/
theorem c3_trash_marks_subtree_witness :
    ({ id := "C", ownerId := 1, parentId := none, name := "C", nodeType := "folder",
       sizeBytes := none, mimeType := none, createdAt := 0, modifiedAt := 0,
       deletedAt := some 5, originalParentId := some "P" } : Node) ∈ dbPCTrashed.nodes := by
  have hacyc : ∀ m ∈ dbPC.nodes, ∀ q, m.parentId = some q →
      (fun s => if s == "C" then 1 else 0) q < (fun s => if s == "C" then 1 else 0) m.id := by
    intro m hm q hq
    simp only [dbPC, mkFolder] at hm
    rcases List.mem_cons.mp hm with h1 | h2
    · rw [h1] at hq
      simp at hq
    · rcases List.mem_cons.mp h2 with h3 | h4
      · rw [h3] at hq
        simp only at hq
        injection hq with hq2
        rw [h3, ← hq2]
        decide
      · simp at h4
  have hbound : ∀ m ∈ dbPC.nodes,
      (fun s => if s == "C" then 1 else 0) m.id < dbPC.nodes.length := by decide
  have h := c3_trash_marks_subtree dbPC "P" 1 dbPCTrashed
    (fun s => if s == "C" then 1 else 0) hacyc hbound rfl
  exact h.1 (mkFolder "C" 1 (some "P") "C") (by decide)
    (DescendantOf.step (mkFolder "C" 1 (some "P") "C") DescendantOf.refl (by decide) rfl)

/-- Claim C4: trash/restore round-trip.  First part: for a well-formed
database (distinct ids, no unique-index clash) and a live node n with no
stale original-parent, a successful trash of n followed by a restore of n
succeeds and reproduces n exactly — same name, parent and timestamps (the
operations do not touch modified time).  Second part: when a sibling row
already occupies the (owner, original parent, name) slot of a trashed node,
the restore fails with the unique violation (surfaced as Conflict) and the
transaction leaves the state unchanged, so the node remains trashed. -/
theorem c4_trash_restore_roundtrip :
    (∀ (db db1 : DB) (n : Node),
      (db.nodes.map (fun m => m.id)).Nodup →
      hasClashB db.nodes = false →
      n ∈ db.nodes → n.deletedAt = none → n.originalParentId = none →
      moveNodeToTrash db n.id n.ownerId = Except.ok (db1, true) →
      ∃ db2, restoreNode db1 n.id n.ownerId = Except.ok (db2, true) ∧
        db2.nodes.find? (fun m => m.id == n.id) = some n) ∧
    (∀ (env : Env) (dbx : DB) (m r : Node),
      m ∈ dbx.nodes → m.deletedAt ≠ none →
      r ∈ dbx.nodes → r.deletedAt = none → r.id ≠ m.id → r.ownerId = m.ownerId →
      r.name = m.name → r.parentId = m.originalParentId →
      restoreNode dbx m.id m.ownerId = Except.error TxError.uniqueViolation ∧
      restoreOp env dbx m.ownerId m.id = (dbx, some TxError.uniqueViolation)) := by
  constructor
  · intro db db1 n hnodup hnames hmem hlive horig htrash
    obtain ⟨hdb1, hclash1, -⟩ := trash_ok_spec htrash
    subst hdb1
    have hnid : n.id ∈ trashSet db n.id n.ownerId := id_mem_trashSet_self hmem hlive rfl
    have hcontains : (trashSet db n.id n.ownerId).contains n.id = true := by simpa using hnid
    have hgRow : (fun x => if (trashSet db n.id n.ownerId).contains x.id then
        trashFields db.now x else x) n = trashFields db.now n := by
      dsimp only
      rw [if_pos hcontains]
    -- composing the two updates over the original rows
    have hcomp : (db.nodes.map (fun x =>
        if (trashSet db n.id n.ownerId).contains x.id then trashFields db.now x else x)).map
          (fun x => if x.id == n.id && x.ownerId == n.ownerId && !(x.deletedAt == none) then
            restoreFields x else x) =
        db.nodes.map (fun x => if x.id == n.id then n else
          (if (trashSet db n.id n.ownerId).contains x.id then trashFields db.now x else x)) := by
      rw [List.map_map]
      apply List.map_congr_left
      intro x hx
      simp only [Function.comp_apply]
      by_cases hxid : x.id = n.id
      · have hxn : x = n := eq_of_mem_same_id hnodup hx hmem hxid
        subst hxn
        rw [if_pos (by simp : (x.id == x.id) = true), if_pos hcontains,
          if_pos (by simp [trashFields] : ((trashFields db.now x).id == x.id &&
            (trashFields db.now x).ownerId == x.ownerId &&
            !((trashFields db.now x).deletedAt == none)) = true)]
        exact restore_trash_cancel hlive horig
      · have hgid : (if (trashSet db n.id n.ownerId).contains x.id then
            trashFields db.now x else x).id = x.id := by
          split <;> rfl
        have hpredf : ((if (trashSet db n.id n.ownerId).contains x.id then
            trashFields db.now x else x).id == n.id &&
            (if (trashSet db n.id n.ownerId).contains x.id then
              trashFields db.now x else x).ownerId == n.ownerId &&
            !((if (trashSet db n.id n.ownerId).contains x.id then
              trashFields db.now x else x).deletedAt == none)) = false := by
          have h1 : ((if (trashSet db n.id n.ownerId).contains x.id then
              trashFields db.now x else x).id == n.id) = false := by
            rw [hgid]
            exact beq_eq_false_iff_ne.mpr hxid
          simp only [h1, Bool.false_and]
        rw [if_neg (by simp [hxid] : ¬ (x.id == n.id) = true),
          if_neg (by rw [hpredf]; exact Bool.false_ne_true)]
    -- the restored list passes the unique name indexes
    have hp1 : db.nodes.Pairwise (fun a b => clashB a b = false) :=
      hasClashB_eq_false_iff.mp hnames
    have hp2 : db.nodes.Pairwise (fun a b =>
        clashB ((fun x => if (trashSet db n.id n.ownerId).contains x.id then
          trashFields db.now x else x) a)
          ((fun x => if (trashSet db n.id n.ownerId).contains x.id then
            trashFields db.now x else x) b) = false) :=
      List.pairwise_map.mp (hasClashB_eq_false_iff.mp hclash1)
    have hpL : db.nodes.Pairwise (fun a b =>
        clashB ((fun x => if x.id == n.id then n else
          (if (trashSet db n.id n.ownerId).contains x.id then trashFields db.now x else x)) a)
          ((fun x => if x.id == n.id then n else
            (if (trashSet db n.id n.ownerId).contains x.id then
              trashFields db.now x else x)) b) = false) := by
      refine (hp1.and hp2).imp_of_mem ?_
      intro a b ha hb hab
      obtain ⟨hab1, hab2⟩ := hab
      dsimp only at hab2 ⊢
      by_cases haid : a.id = n.id
      · have han : a = n := eq_of_mem_same_id hnodup ha hmem haid
        subst han
        rw [if_pos (by simp : (a.id == a.id) = true)]
        by_cases hbid : b.id = a.id
        · have hbn : b = a := eq_of_mem_same_id hnodup hb ha hbid
          subst hbn
          exact absurd hab1 (by simp [clashB])
        · rw [if_neg (by simp [hbid] : ¬ (b.id == a.id) = true)]
          by_cases hcb : (trashSet db a.id a.ownerId).contains b.id = true
          · rw [if_pos hcb]
            cases hpar : a.parentId with
            | some p =>
              rw [Bool.eq_false_iff]
              intro htrue
              have := (clashB_eq_true_iff.mp htrue).2.2
              rw [hpar] at this
              simp [trashFields] at this
            | none =>
              rw [clashB_first_congr (a := a) (c := trashFields db.now a)
                (by simp [trashFields]) (by simp [trashFields]) (by simp [trashFields, hpar])]
              rw [if_pos hcontains, if_pos hcb] at hab2
              exact hab2
          · rw [if_neg hcb]
            exact hab1
      · rw [if_neg (by simp [haid] : ¬ (a.id == n.id) = true)]
        by_cases hbid : b.id = n.id
        · have hbn : b = n := eq_of_mem_same_id hnodup hb hmem hbid
          subst hbn
          rw [if_pos (by simp : (b.id == b.id) = true)]
          by_cases hca : (trashSet db b.id b.ownerId).contains a.id = true
          · rw [if_pos hca]
            rw [Bool.eq_false_iff]
            intro htrue
            have hsym := clashB_symm_true htrue
            cases hpar : b.parentId with
            | some p =>
              have := (clashB_eq_true_iff.mp hsym).2.2
              rw [hpar] at this
              simp [trashFields] at this
            | none =>
              rw [clashB_first_congr (a := b) (c := trashFields db.now b)
                (by simp [trashFields]) (by simp [trashFields])
                (by simp [trashFields, hpar])] at hsym
              rw [if_pos hca, if_pos hcontains] at hab2
              exact absurd (clashB_symm_true hsym) (Bool.eq_false_iff.mp hab2)
          · rw [if_neg hca]
            exact hab1
        · rw [if_neg (by simp [hbid] : ¬ (b.id == n.id) = true)]
          exact hab2
    have hclashL : hasClashB (db.nodes.map (fun x => if x.id == n.id then n else
        (if (trashSet db n.id n.ownerId).contains x.id then
          trashFields db.now x else x))) = false :=
      hasClashB_eq_false_iff.mpr (List.pairwise_map.mpr hpL)
    -- some row is affected by the restore
    have hrows : ((db.nodes.map (fun x =>
        if (trashSet db n.id n.ownerId).contains x.id then trashFields db.now x else x)).any
        (fun x => x.id == n.id && x.ownerId == n.ownerId && !(x.deletedAt == none))) = true := by
      refine List.any_eq_true.mpr ⟨trashFields db.now n, List.mem_map.mpr ⟨n, hmem, hgRow⟩, ?_⟩
      simp [trashFields]
    refine ⟨{ db with nodes := db.nodes.map (fun x => if x.id == n.id then n else
      (if (trashSet db n.id n.ownerId).contains x.id then trashFields db.now x else x)) },
      ?_, ?_⟩
    · simp only [restoreNode]
      rw [hcomp, hclashL, hrows]
      simp
    · have hidsL : ((db.nodes.map (fun x => if x.id == n.id then n else
          (if (trashSet db n.id n.ownerId).contains x.id then
            trashFields db.now x else x))).map (fun m => m.id)) =
          db.nodes.map (fun m => m.id) := by
        apply ids_of_update
        intro x
        dsimp only
        by_cases hxid : x.id = n.id
        · rw [if_pos (by simp [hxid] : (x.id == n.id) = true)]
          exact hxid.symm
        · rw [if_neg (by simp [hxid] : ¬ (x.id == n.id) = true)]
          split <;> rfl
      apply find?_pred_eq_some
      · rw [hidsL]
        exact hnodup
      · refine List.mem_map.mpr ⟨n, hmem, ?_⟩
        dsimp only
        rw [if_pos (by simp : (n.id == n.id) = true)]
      · simp
      · intro m hm
        exact beq_iff_eq.mp hm
  · intro env dbx m r hm hdel hr hrlive hrne hro hrn hrp
    have hpredm : (m.id == m.id && m.ownerId == m.ownerId && !(m.deletedAt == none)) = true := by
      cases hd : m.deletedAt with
      | none => exact absurd hd hdel
      | some t => simp [hd]
    have hpredr : (r.id == m.id && r.ownerId == m.ownerId && !(r.deletedAt == none)) = false := by
      simp [hrne]
    have hmImg : restoreFields m ∈ dbx.nodes.map (fun x =>
        if x.id == m.id && x.ownerId == m.ownerId && !(x.deletedAt == none) then
          restoreFields x else x) := by
      refine List.mem_map.mpr ⟨m, hm, ?_⟩
      dsimp only
      rw [if_pos hpredm]
    have hrImg : r ∈ dbx.nodes.map (fun x =>
        if x.id == m.id && x.ownerId == m.ownerId && !(x.deletedAt == none) then
          restoreFields x else x) := by
      refine List.mem_map.mpr ⟨r, hr, ?_⟩
      dsimp only
      rw [if_neg (by rw [hpredr]; exact Bool.false_ne_true)]
    have hclL : hasClashB (dbx.nodes.map (fun x =>
        if x.id == m.id && x.ownerId == m.ownerId && !(x.deletedAt == none) then
          restoreFields x else x)) = true := by
      refine hasClashB_true_of_mem hmImg hrImg ?_ ?_
      · show (restoreFields m).id ≠ r.id
        simp only [restoreFields]
        exact fun hcontra => hrne hcontra.symm
      · exact clashB_eq_true_iff.mpr ⟨hro.symm, hrn.symm, by simp [restoreFields, hrp]⟩
    have hres : restoreNode dbx m.id m.ownerId = Except.error TxError.uniqueViolation := by
      simp only [restoreNode]
      rw [hclL]
      simp
    refine ⟨hres, ?_⟩
    simp only [restoreOp, execTx, restoreBody, hres]

/-- Witness for C4: the root doc of dbRootDoc round-trips through trash and
restore back to its exact pre-trash row, and in the conflict fixture the
restore of the trashed doc is rejected with the unique violation leaving the
state unchanged. -/
theorem c4_trash_restore_roundtrip_witness :
    (∃ db2, restoreNode dbRootDocTrashed "A" 1 = Except.ok (db2, true) ∧
      db2.nodes.find? (fun m => m.id == "A") = some (mkFile "A" 1 none "doc" 3)) ∧
    restoreNode dbConf "M" 1 = Except.error TxError.uniqueViolation ∧
    restoreOp envOk dbConf 1 "M" = (dbConf, some TxError.uniqueViolation) := by
  refine ⟨?_, ?_, ?_⟩
  · exact c4_trash_restore_roundtrip.1 dbRootDoc dbRootDocTrashed (mkFile "A" 1 none "doc" 3)
      (by decide) rfl (by decide) rfl rfl rfl
  · exact (c4_trash_restore_roundtrip.2 envOk dbConf trashedM (mkFile "R" 1 (some "P") "doc" 2)
      (by decide) (by decide) (by decide) rfl (by decide) rfl rfl rfl).1
  · exact (c4_trash_restore_roundtrip.2 envOk dbConf trashedM (mkFile "R" 1 (some "P") "doc" 2)
      (by decide) (by decide) (by decide) rfl (by decide) rfl rfl rfl).2

/-- The share-walk check holds iff some chain ancestor carries a share to the
principal. -/
theorem hasAccess_iff {db : DB} {i : String} {p : Int} :
    hasAccessToNode db i p = true ↔
      ∃ a ∈ nodeParents db i, ∃ s ∈ db.shares, s.recipientId = p ∧ s.nodeId = a.id := by
  unfold hasAccessToNode
  simp only [List.any_eq_true, Bool.and_eq_true, beq_iff_eq]
  constructor
  · rintro ⟨s, hs, hrec, m, hmch, hms⟩
    exact ⟨m, hmch, s, hs, hrec, hms.symm⟩
  · rintro ⟨a, hach, s, hs, hrec, hsa⟩
    exact ⟨s, hs, hrec, a, hach, hsa.symm⟩

/-- Claim C1: for a live node n and principal p, `GetNodeIfAccessible`
returns the node exactly when p owns n, or n itself or some ancestor on the
parent chain (inclusive) carries a share row — of either permission — whose
recipient is p; and for an id whose rows are all deleted (or absent) the
lookup reports not-found. -/
theorem c1_read_access (db : DB) (n : Node) (p : Int)
    (hnodup : (db.nodes.map (fun m => m.id)).Nodup)
    (hmem : n ∈ db.nodes) (hlive : n.deletedAt = none) :
    (getNodeIfAccessible db n.id p = some n ↔
      (p = n.ownerId ∨ ∃ a ∈ nodeParents db n.id, ∃ s ∈ db.shares,
        s.recipientId = p ∧ s.nodeId = a.id)) ∧
    (∀ i, (∀ m ∈ db.nodes, m.id = i → m.deletedAt ≠ none) →
      getNodeIfAccessible db i p = none) := by
  constructor
  · have hfind : db.nodes.find? (fun m => m.id == n.id && m.deletedAt == none) = some n := by
      apply find?_pred_eq_some _ hnodup hmem
      · simp [hlive]
      · intro m hm
        rw [Bool.and_eq_true] at hm
        exact beq_iff_eq.mp hm.1
    unfold getNodeIfAccessible
    rw [hfind]
    dsimp only
    by_cases ho : n.ownerId = p
    · rw [if_pos (by simp [ho])]
      exact ⟨fun _ => Or.inl ho.symm, fun _ => rfl⟩
    · rw [if_neg (by simp [ho])]
      by_cases ha : hasAccessToNode db n.id p = true
      · rw [if_pos ha]
        exact ⟨fun _ => Or.inr (hasAccess_iff.mp ha), fun _ => rfl⟩
      · rw [if_neg ha]
        constructor
        · intro h
          exact Option.noConfusion h
        · rintro (h1 | h2)
          · exact absurd h1.symm ho
          · exact absurd (hasAccess_iff.mpr h2) ha
  · intro i hno
    unfold getNodeIfAccessible
    have hfind : db.nodes.find? (fun m => m.id == i && m.deletedAt == none) = none := by
      rw [List.find?_eq_none]
      intro m hm hpred
      rw [Bool.and_eq_true] at hpred
      exact hno m hm (beq_iff_eq.mp hpred.1) (by simpa using hpred.2)
    rw [hfind]

/-- Witness for C1: user 2 reaches folder B of dbShared through the read
share on its parent A, and an absent id is reported not-found. -/
theorem c1_read_access_witness :
    getNodeIfAccessible dbShared "B" 2 = some (mkFolder "B" 1 (some "A") "B") ∧
    getNodeIfAccessible dbShared "Z" 2 = none := by
  constructor
  · exact (c1_read_access dbShared (mkFolder "B" 1 (some "A") "B") 2
      (by decide) (by decide) rfl).1.mpr
      (Or.inr ⟨mkFolder "A" 1 none "A", by decide,
        { shareId := 1, nodeId := "A", sharerId := 1, recipientId := 2,
          permissions := "read" }, by decide, rfl, rfl⟩)
  · exact (c1_read_access dbShared (mkFolder "B" 1 (some "A") "B") 2
      (by decide) (by decide) rfl).2 "Z" (by decide)

/-- A transaction body that errors leaves the committed state unchanged. -/
theorem execTx_of_error {db : DB} {fn : DB → Except TxError DB} {e : TxError}
    (h : fn db = Except.error e) : execTx db fn = (db, some e) := by
  simp [execTx, h]

/-- A committed transaction ran its body successfully. -/
theorem execTx_eq_of_ok {db db2 : DB} {fn : DB → Except TxError DB}
    (h : execTx db fn = (db2, none)) : fn db = Except.ok db2 := by
  unfold execTx at h
  cases hfn : fn db with
  | ok d => rw [hfn] at h; simp only [Prod.mk.injEq] at h; rw [h.1]
  | error e => rw [hfn] at h; simp at h

/-- Shape of a successful journal append. -/
theorem logEvent_ok_elim {env : Env} {db : DB} {u : Int} {t : String} {p : Json} {db2 : DB}
    (h : logEvent env db u t p = Except.ok db2) :
    db2 = { db with
      events := (db.events ++ [EventRow.mk db.nextEventId u t db.now (eventEnvelope t p)]),
      nextEventId := db.nextEventId + 1 } := by
  unfold logEvent at h
  split at h
  · exact absurd h (by simp)
  · simp only [Except.ok.injEq] at h
    exact h.symm

/-- Shape of a successful node insert. -/
theorem create_ok_elim {db : DB} {arg : CreateNodeParams} {db1 : DB} {node : Node}
    (h : createNode db arg = Except.ok (db1, node)) :
    db1 = { db with nodes := db.nodes ++ [newNodeRow arg db.now] } ∧
    node = newNodeRow arg db.now := by
  unfold createNode at h
  split at h
  · exact absurd h (by simp)
  · split at h
    · exact absurd h (by simp)
    · split at h
      · exact absurd h (by simp)
      · split at h
        · exact absurd h (by simp)
        · simp only [Except.ok.injEq, Prod.mk.injEq] at h
          exact ⟨h.1.symm, h.2.symm⟩

/-- A negated negated row-match means some row matched. -/
theorem any_true_of_not_not {l : List Node} {p : Node → Bool}
    (h : ¬((!l.any p) = true)) : l.any p = true := by
  cases hb : l.any p with
  | false => exact absurd (by rw [hb]; rfl) h
  | true => rfl

/-- Shape of a successful rename. -/
theorem rename_ok_elim {db : DB} {i : String} {o : Int} {nm : String} {db1 : DB}
    (h : renameNode db i o nm = Except.ok (db1, true)) :
    db1.nodes = db.nodes.map (fun n =>
      if n.id == i && n.ownerId == o && n.deletedAt == none then
        { n with name := nm, modifiedAt := db.now } else n) ∧
    (db.nodes.any (fun n => n.id == i && n.ownerId == o && n.deletedAt == none)) = true := by
  simp only [renameNode] at h
  split at h
  · rename_i haff
    simp only [Except.ok.injEq, Prod.mk.injEq] at h
    exact absurd h.2 (by simp)
  · rename_i haff
    split at h
    · exact absurd h (by simp)
    · simp only [Except.ok.injEq, Prod.mk.injEq] at h
      refine ⟨?_, any_true_of_not_not haff⟩
      rw [← h.1]

/-- Shape of a successful move. -/
theorem move_ok_elim {db : DB} {i : String} {o : Int} {np : Option String} {db1 : DB}
    (h : moveNode db i o np = Except.ok (db1, true)) :
    db1.nodes = db.nodes.map (fun n =>
      if n.id == i && n.ownerId == o && n.deletedAt == none then
        { n with parentId := np, modifiedAt := db.now } else n) ∧
    (db.nodes.any (fun n => n.id == i && n.ownerId == o && n.deletedAt == none)) = true := by
  cases np with
  | some p =>
    simp only [moveNode] at h
    split at h
    · rename_i haff
      simp only [Except.ok.injEq, Prod.mk.injEq] at h
      exact absurd h.2 (by simp)
    · rename_i haff
      split at h
      · exact absurd h (by simp)
      · split at h
        · exact absurd h (by simp)
        · simp only [Except.ok.injEq, Prod.mk.injEq] at h
          refine ⟨?_, any_true_of_not_not haff⟩
          rw [← h.1]
  | none =>
    simp only [moveNode] at h
    split at h
    · rename_i haff
      simp only [Except.ok.injEq, Prod.mk.injEq] at h
      exact absurd h.2 (by simp)
    · rename_i haff
      split at h
      · exact absurd h (by simp)
      · simp only [Except.ok.injEq, Prod.mk.injEq] at h
        refine ⟨?_, any_true_of_not_not haff⟩
        rw [← h.1]

/-- Shape of a successful restore. -/
theorem restore_ok_elim {db : DB} {i : String} {o : Int} {db1 : DB}
    (h : restoreNode db i o = Except.ok (db1, true)) :
    db1.nodes = db.nodes.map (fun n =>
      if n.id == i && n.ownerId == o && !(n.deletedAt == none) then restoreFields n else n) ∧
    (db.nodes.any (fun n => n.id == i && n.ownerId == o && !(n.deletedAt == none))) = true := by
  simp only [restoreNode] at h
  split at h
  · exact absurd h (by simp)
  · simp only [Except.ok.injEq, Prod.mk.injEq] at h
    refine ⟨?_, h.2⟩
    rw [← h.1]

/-- Shape of a successful favorite insert. -/
theorem addFavorite_ok_elim {db : DB} {u : Int} {i : String} {db1 : DB}
    (h : addFavorite db u i = Except.ok db1) :
    db1 = { db with favorites := db.favorites ++ [(u, i)] } := by
  unfold addFavorite at h
  split at h
  · exact absurd h (by simp)
  · split at h
    · exact absurd h (by simp)
    · simp only [Except.ok.injEq] at h
      exact h.symm

/-- Shape of a successful share insert. -/
theorem shareNode_ok_elim {db : DB} {arg : ShareNodeParams} {db1 : DB} {sh : Share}
    (h : shareNode db arg = Except.ok (db1, sh)) :
    db1 = { db with shares := db.shares ++ [sh] } ∧ sh.nodeId = arg.nodeId ∧
    sh.recipientId = arg.recipientId ∧ sh.permissions = arg.permissions := by
  simp only [shareNode] at h
  split at h
  · exact absurd h (by simp)
  · split at h
    · exact absurd h (by simp)
    · simp only [Except.ok.injEq, Prod.mk.injEq] at h
      obtain ⟨h1, h2⟩ := h
      subst h2
      exact ⟨h1.symm, rfl, rfl, rfl⟩

/-- The shared journalling tail of the rename/move/trash transaction bodies:
on success the node state is untouched and an event row of the given type was
appended for the actor. -/
theorem logTail_ok {env : Env} {d1 db2 : DB} {actor owner : Int} {t : String} {p1 p2 : Json}
    (hbody : (match logEvent env d1 actor t p1 with
      | Except.error e => Except.error e
      | Except.ok db2a =>
        if actor == owner then Except.ok db2a else logEvent env db2a owner t p2) =
      Except.ok db2) :
    db2.nodes = d1.nodes ∧ db2.users = d1.users ∧ db2.favorites = d1.favorites ∧
    db2.shares = d1.shares ∧
    ∃ ev ∈ db2.events, ev.userId = actor ∧ ev.eventType = t := by
  cases hl : logEvent env d1 actor t p1 with
  | error e => rw [hl] at hbody; exact absurd hbody (by simp)
  | ok db2a =>
    rw [hl] at hbody
    dsimp only at hbody
    have hla := logEvent_ok_elim hl
    subst hla
    by_cases hao : (actor == owner) = true
    · rw [if_pos hao] at hbody
      simp only [Except.ok.injEq] at hbody
      subst hbody
      refine ⟨rfl, rfl, rfl, rfl, EventRow.mk d1.nextEventId actor t d1.now
        (eventEnvelope t p1), by simp, rfl, rfl⟩
    · rw [if_neg hao] at hbody
      cases hl2 : logEvent env _ owner t p2 with
      | error e => rw [hl2] at hbody; exact absurd hbody (by simp)
      | ok db2b =>
        rw [hl2] at hbody
        simp only [Except.ok.injEq] at hbody
        subst hbody
        have hlb := logEvent_ok_elim hl2
        subst hlb
        refine ⟨rfl, rfl, rfl, rfl, EventRow.mk d1.nextEventId actor t d1.now
          (eventEnvelope t p1), by simp, rfl, rfl⟩

/-- With a failing journal, the folder-creation transaction rolls back. -/
theorem createFolderOp_jf (env : Env) (db : DB) (actor : Int) (pfo : Option Int)
    (arg : CreateNodeParams) (hjf : env.journalFails = true) :
    ∃ e, createFolderOp env db actor pfo arg = (db, some e) := by
  cases hc : createNode db arg with
  | error e => exact ⟨e, execTx_of_error (by simp only [createFolderBody, hc])⟩
  | ok pr =>
    obtain ⟨db1, node⟩ := pr
    exact ⟨TxError.journalFailure,
      execTx_of_error (by simp only [createFolderBody, hc, logEvent, hjf, if_true])⟩

/-- A committed folder creation contains both the new row and its journal
record. -/
theorem createFolderOp_ok (env : Env) (db : DB) (actor : Int) (pfo : Option Int)
    (arg : CreateNodeParams) (db2 : DB)
    (h : createFolderOp env db actor pfo arg = (db2, none)) :
    newNodeRow arg db.now ∈ db2.nodes ∧
    ∃ ev ∈ db2.events, ev.userId = actor ∧ ev.eventType = "node_created" := by
  have hbody := execTx_eq_of_ok h
  unfold createFolderBody at hbody
  cases hc : createNode db arg with
  | error e => rw [hc] at hbody; exact absurd hbody (by simp)
  | ok pr =>
    obtain ⟨db1, node⟩ := pr
    rw [hc] at hbody
    dsimp only at hbody
    obtain ⟨hdb1, -⟩ := create_ok_elim hc
    cases hl : logEvent env db1 actor "node_created" (nodeJson node) with
    | error e => rw [hl] at hbody; exact absurd hbody (by simp)
    | ok db2a =>
      rw [hl] at hbody
      dsimp only at hbody
      have hla := logEvent_ok_elim hl
      subst hla
      subst hdb1
      cases pfo with
      | none =>
        simp only [Except.ok.injEq] at hbody
        subst hbody
        exact ⟨by simp, EventRow.mk db.nextEventId actor "node_created" db.now (eventEnvelope "node_created" (nodeJson node)), by simp, rfl, rfl⟩
      | some o =>
        dsimp only at hbody
        by_cases hao : (actor == o) = true
        · rw [if_pos hao] at hbody
          simp only [Except.ok.injEq] at hbody
          subst hbody
          exact ⟨by simp, EventRow.mk db.nextEventId actor "node_created" db.now (eventEnvelope "node_created" (nodeJson node)), by simp, rfl, rfl⟩
        · rw [if_neg hao] at hbody
          cases hl2 : logEvent env _ o "node_created" (nodeJson node) with
          | error e => rw [hl2] at hbody; exact absurd hbody (by simp)
          | ok db2b =>
            rw [hl2] at hbody
            simp only [Except.ok.injEq] at hbody
            subst hbody
            have hlb := logEvent_ok_elim hl2
            subst hlb
            exact ⟨by simp, EventRow.mk db.nextEventId actor "node_created" db.now (eventEnvelope "node_created" (nodeJson node)), by simp, rfl, rfl⟩

/-- With a failing journal, the rename transaction rolls back. -/
theorem renameOp_jf (env : Env) (db : DB) (actor owner : Int)
    (nodeId newName oldName : String) (hjf : env.journalFails = true) :
    ∃ e, renameOp env db actor owner nodeId newName oldName = (db, some e) := by
  cases hr : renameNode db nodeId owner newName with
  | error e => exact ⟨e, execTx_of_error (by simp only [renameBody, hr])⟩
  | ok pr =>
    obtain ⟨d1, b⟩ := pr
    cases b with
    | false => exact ⟨TxError.notFound, execTx_of_error (by simp only [renameBody, hr])⟩
    | true =>
      exact ⟨TxError.journalFailure,
        execTx_of_error (by simp only [renameBody, hr, logEvent, hjf, if_true])⟩

/-- A committed rename contains both the renamed row and its journal
record. -/
theorem renameOp_ok (env : Env) (db : DB) (actor owner : Int)
    (nodeId newName oldName : String) (db2 : DB)
    (h : renameOp env db actor owner nodeId newName oldName = (db2, none)) :
    (∃ m ∈ db.nodes, m.id = nodeId ∧
      { m with name := newName, modifiedAt := db.now } ∈ db2.nodes) ∧
    ∃ ev ∈ db2.events, ev.userId = actor ∧ ev.eventType = "node_renamed" := by
  have hbody := execTx_eq_of_ok h
  unfold renameBody at hbody
  cases hr : renameNode db nodeId owner newName with
  | error e => rw [hr] at hbody; exact absurd hbody (by simp)
  | ok pr =>
    obtain ⟨d1, b⟩ := pr
    cases b with
    | false => rw [hr] at hbody; exact absurd hbody (by simp)
    | true =>
      rw [hr] at hbody
      dsimp only at hbody
      obtain ⟨hnodes, haff⟩ := rename_ok_elim hr
      obtain ⟨htail, -, -, -, hev⟩ := logTail_ok hbody
      obtain ⟨m, hm, hmp⟩ := List.any_eq_true.mp haff
      refine ⟨⟨m, hm, ?_, ?_⟩, hev⟩
      · rw [Bool.and_eq_true, Bool.and_eq_true] at hmp
        exact beq_iff_eq.mp hmp.1.1
      · rw [htail, hnodes]
        exact List.mem_map.mpr ⟨m, hm, by rw [if_pos hmp]⟩

/-- With a failing journal, the move transaction rolls back. -/
theorem moveOp_jf (env : Env) (db : DB) (actor owner : Int) (nodeId : String)
    (np : Option String) (reqParent : String) (oldParent : Option String)
    (hjf : env.journalFails = true) :
    ∃ e, moveOp env db actor owner nodeId np reqParent oldParent = (db, some e) := by
  cases hr : moveNode db nodeId owner np with
  | error e => exact ⟨e, execTx_of_error (by simp only [moveBody, hr])⟩
  | ok pr =>
    obtain ⟨d1, b⟩ := pr
    cases b with
    | false => exact ⟨TxError.notFound, execTx_of_error (by simp only [moveBody, hr])⟩
    | true =>
      exact ⟨TxError.journalFailure,
        execTx_of_error (by simp only [moveBody, hr, logEvent, hjf, if_true])⟩

/-- A committed move contains both the moved row and its journal record. -/
theorem moveOp_ok (env : Env) (db : DB) (actor owner : Int) (nodeId : String)
    (np : Option String) (reqParent : String) (oldParent : Option String) (db2 : DB)
    (h : moveOp env db actor owner nodeId np reqParent oldParent = (db2, none)) :
    (∃ m ∈ db.nodes, m.id = nodeId ∧
      { m with parentId := np, modifiedAt := db.now } ∈ db2.nodes) ∧
    ∃ ev ∈ db2.events, ev.userId = actor ∧ ev.eventType = "node_moved" := by
  have hbody := execTx_eq_of_ok h
  unfold moveBody at hbody
  cases hr : moveNode db nodeId owner np with
  | error e => rw [hr] at hbody; exact absurd hbody (by simp)
  | ok pr =>
    obtain ⟨d1, b⟩ := pr
    cases b with
    | false => rw [hr] at hbody; exact absurd hbody (by simp)
    | true =>
      rw [hr] at hbody
      dsimp only at hbody
      obtain ⟨hnodes, haff⟩ := move_ok_elim hr
      obtain ⟨htail, -, -, -, hev⟩ := logTail_ok hbody
      obtain ⟨m, hm, hmp⟩ := List.any_eq_true.mp haff
      refine ⟨⟨m, hm, ?_, ?_⟩, hev⟩
      · rw [Bool.and_eq_true, Bool.and_eq_true] at hmp
        exact beq_iff_eq.mp hmp.1.1
      · rw [htail, hnodes]
        exact List.mem_map.mpr ⟨m, hm, by rw [if_pos hmp]⟩

/-- With a failing journal, the trash transaction rolls back. -/
theorem trashOp_jf (env : Env) (db : DB) (actor owner : Int) (nodeId : String)
    (oldParent : Option String) (hjf : env.journalFails = true) :
    ∃ e, trashOp env db actor owner nodeId oldParent = (db, some e) := by
  cases hr : moveNodeToTrash db nodeId owner with
  | error e => exact ⟨e, execTx_of_error (by simp only [trashBody, hr])⟩
  | ok pr =>
    obtain ⟨d1, b⟩ := pr
    cases b with
    | false => exact ⟨TxError.notFound, execTx_of_error (by simp only [trashBody, hr])⟩
    | true =>
      exact ⟨TxError.journalFailure,
        execTx_of_error (by simp only [trashBody, hr, logEvent, hjf, if_true])⟩

/-- A committed trash contains both a trashed row and its journal record. -/
theorem trashOp_ok (env : Env) (db : DB) (actor owner : Int) (nodeId : String)
    (oldParent : Option String) (db2 : DB)
    (h : trashOp env db actor owner nodeId oldParent = (db2, none)) :
    (∃ m ∈ db.nodes, trashFields db.now m ∈ db2.nodes) ∧
    ∃ ev ∈ db2.events, ev.userId = actor ∧ ev.eventType = "node_trashed" := by
  have hbody := execTx_eq_of_ok h
  unfold trashBody at hbody
  cases hr : moveNodeToTrash db nodeId owner with
  | error e => rw [hr] at hbody; exact absurd hbody (by simp)
  | ok pr =>
    obtain ⟨d1, b⟩ := pr
    cases b with
    | false => rw [hr] at hbody; exact absurd hbody (by simp)
    | true =>
      rw [hr] at hbody
      dsimp only at hbody
      obtain ⟨hd1, -, hb⟩ := trash_ok_spec hr
      subst hd1
      obtain ⟨htail, -, -, -, hev⟩ := logTail_ok hbody
      obtain ⟨m, hm, hmp⟩ := List.any_eq_true.mp hb.symm
      refine ⟨⟨m, hm, ?_⟩, hev⟩
      rw [htail]
      exact List.mem_map.mpr ⟨m, hm, by rw [if_pos hmp]⟩

/-- With a failing journal, the restore transaction rolls back. -/
theorem restoreOp_jf (env : Env) (db : DB) (actor : Int) (nodeId : String)
    (hjf : env.journalFails = true) :
    ∃ e, restoreOp env db actor nodeId = (db, some e) := by
  cases hr : restoreNode db nodeId actor with
  | error e => exact ⟨e, execTx_of_error (by simp only [restoreBody, hr])⟩
  | ok pr =>
    obtain ⟨d1, b⟩ := pr
    cases b with
    | false => exact ⟨TxError.notFound, execTx_of_error (by simp only [restoreBody, hr])⟩
    | true =>
      cases hg : getNodeByID d1 nodeId actor with
      | none =>
        exact ⟨TxError.notFound, execTx_of_error (by simp only [restoreBody, hr, hg])⟩
      | some nd =>
        exact ⟨TxError.journalFailure,
          execTx_of_error (by simp only [restoreBody, hr, hg, logEvent, hjf, if_true])⟩

/-- A committed restore contains both the restored row and its journal
record. -/
theorem restoreOp_ok (env : Env) (db : DB) (actor : Int) (nodeId : String) (db2 : DB)
    (h : restoreOp env db actor nodeId = (db2, none)) :
    (∃ m ∈ db.nodes, m.id = nodeId ∧ restoreFields m ∈ db2.nodes) ∧
    ∃ ev ∈ db2.events, ev.userId = actor ∧ ev.eventType = "node_restored" := by
  have hbody := execTx_eq_of_ok h
  unfold restoreBody at hbody
  cases hr : restoreNode db nodeId actor with
  | error e => rw [hr] at hbody; exact absurd hbody (by simp)
  | ok pr =>
    obtain ⟨d1, b⟩ := pr
    cases b with
    | false => rw [hr] at hbody; exact absurd hbody (by simp)
    | true =>
      rw [hr] at hbody
      dsimp only at hbody
      obtain ⟨hnodes, haff⟩ := restore_ok_elim hr
      cases hg : getNodeByID d1 nodeId actor with
      | none => rw [hg] at hbody; exact absurd hbody (by simp)
      | some nd =>
        rw [hg] at hbody
        dsimp only at hbody
        cases hl : logEvent env d1 actor "node_restored" (nodeJson nd) with
        | error e => rw [hl] at hbody; exact absurd hbody (by simp)
        | ok db2a =>
          rw [hl] at hbody
          simp only [Except.ok.injEq] at hbody
          subst hbody
          have hla := logEvent_ok_elim hl
          subst hla
          obtain ⟨m, hm, hmp⟩ := List.any_eq_true.mp haff
          refine ⟨⟨m, hm, ?_, ?_⟩, EventRow.mk d1.nextEventId actor "node_restored" d1.now
            (eventEnvelope "node_restored" (nodeJson nd)), by simp, rfl, rfl⟩
          · rw [Bool.and_eq_true, Bool.and_eq_true] at hmp
            exact beq_iff_eq.mp hmp.1.1
          · show restoreFields m ∈ d1.nodes
            rw [hnodes]
            exact List.mem_map.mpr ⟨m, hm, by rw [if_pos hmp]⟩

/-- With a failing journal, the favorite transaction rolls back. -/
theorem favoriteOp_jf (env : Env) (db : DB) (userId : Int) (nodeId : String)
    (hjf : env.journalFails = true) :
    ∃ e, favoriteOp env db userId nodeId = (db, some e) := by
  cases hf : addFavorite db userId nodeId with
  | error e => exact ⟨e, execTx_of_error (by simp only [favoriteBody, hf])⟩
  | ok d1 =>
    exact ⟨TxError.journalFailure,
      execTx_of_error (by simp only [favoriteBody, hf, logEvent, hjf, if_true])⟩

/-- A committed favorite contains both the favorite row and its journal
record. -/
theorem favoriteOp_ok (env : Env) (db : DB) (userId : Int) (nodeId : String) (db2 : DB)
    (h : favoriteOp env db userId nodeId = (db2, none)) :
    (userId, nodeId) ∈ db2.favorites ∧
    ∃ ev ∈ db2.events, ev.userId = userId ∧ ev.eventType = "favorite_added" := by
  have hbody := execTx_eq_of_ok h
  unfold favoriteBody at hbody
  cases hf : addFavorite db userId nodeId with
  | error e => rw [hf] at hbody; exact absurd hbody (by simp)
  | ok d1 =>
    rw [hf] at hbody
    dsimp only at hbody
    have hd1 := addFavorite_ok_elim hf
    subst hd1
    have hla := logEvent_ok_elim hbody
    subst hla
    exact ⟨by simp, EventRow.mk db.nextEventId userId "favorite_added" db.now
      (eventEnvelope "favorite_added" (Json.obj [("node_id", Json.str nodeId)])),
      by simp, rfl, rfl⟩

/-- With a failing journal, the share transaction rolls back. -/
theorem shareOp_jf (env : Env) (db : DB) (arg : ShareNodeParams) (nodeInfo : Json)
    (hjf : env.journalFails = true) :
    ∃ e, shareOp env db arg nodeInfo = (db, some e) := by
  cases hs : shareNode db arg with
  | error e => exact ⟨e, execTx_of_error (by simp only [shareBody, hs])⟩
  | ok pr =>
    obtain ⟨d1, sh⟩ := pr
    exact ⟨TxError.journalFailure,
      execTx_of_error (by simp only [shareBody, hs, logEvent, hjf, if_true])⟩

/-- A committed share contains both the share row and the recipient's journal
record. -/
theorem shareOp_ok (env : Env) (db : DB) (arg : ShareNodeParams) (nodeInfo : Json) (db2 : DB)
    (h : shareOp env db arg nodeInfo = (db2, none)) :
    (∃ sh ∈ db2.shares, sh.nodeId = arg.nodeId ∧ sh.recipientId = arg.recipientId ∧
      sh.permissions = arg.permissions) ∧
    ∃ ev ∈ db2.events, ev.userId = arg.recipientId ∧
      ev.eventType = "node_shared_with_you" := by
  have hbody := execTx_eq_of_ok h
  unfold shareBody at hbody
  cases hs : shareNode db arg with
  | error e => rw [hs] at hbody; exact absurd hbody (by simp)
  | ok pr =>
    obtain ⟨d1, sh⟩ := pr
    rw [hs] at hbody
    dsimp only at hbody
    obtain ⟨hd1, hnid, hrec, hperm⟩ := shareNode_ok_elim hs
    subst hd1
    have hla := logEvent_ok_elim hbody
    subst hla
    exact ⟨⟨sh, by simp, hnid, hrec, hperm⟩,
      EventRow.mk db.nextEventId arg.recipientId "node_shared_with_you" db.now
        (eventEnvelope "node_shared_with_you"
          (Json.obj [("share_info", shareJson sh), ("node_info", nodeInfo)])),
      by simp, rfl, rfl⟩

/-- Claim C2: every mutating operation (create, rename, move, trash, restore,
favorite, share) journals inside the same `ExecTx` transaction as the state
mutation: any error in the body — in particular a failing journal append —
rolls the committed state back to the original database, so the mutation is
not observable; and a committed transaction contains both the state change
and a journal row of the corresponding event type for the acting principal
(for a share, for the recipient). -/
theorem c2_mutation_journal_atomicity :
    (∀ (db db2 : DB) (fn : DB → Except TxError DB) (e : TxError),
      execTx db fn = (db2, some e) → db2 = db) ∧
    (∀ (env : Env) (db : DB) (actor : Int) (pfo : Option Int) (arg : CreateNodeParams),
      env.journalFails = true → ∃ e, createFolderOp env db actor pfo arg = (db, some e)) ∧
    (∀ (env : Env) (db : DB) (actor : Int) (pfo : Option Int) (arg : CreateNodeParams)
      (db2 : DB), createFolderOp env db actor pfo arg = (db2, none) →
      newNodeRow arg db.now ∈ db2.nodes ∧
      ∃ ev ∈ db2.events, ev.userId = actor ∧ ev.eventType = "node_created") ∧
    (∀ (env : Env) (db : DB) (actor owner : Int) (nodeId newName oldName : String),
      env.journalFails = true →
      ∃ e, renameOp env db actor owner nodeId newName oldName = (db, some e)) ∧
    (∀ (env : Env) (db : DB) (actor owner : Int) (nodeId newName oldName : String)
      (db2 : DB), renameOp env db actor owner nodeId newName oldName = (db2, none) →
      (∃ m ∈ db.nodes, m.id = nodeId ∧
        { m with name := newName, modifiedAt := db.now } ∈ db2.nodes) ∧
      ∃ ev ∈ db2.events, ev.userId = actor ∧ ev.eventType = "node_renamed") ∧
    (∀ (env : Env) (db : DB) (actor owner : Int) (nodeId : String) (np : Option String)
      (reqParent : String) (oldParent : Option String), env.journalFails = true →
      ∃ e, moveOp env db actor owner nodeId np reqParent oldParent = (db, some e)) ∧
    (∀ (env : Env) (db : DB) (actor owner : Int) (nodeId : String) (np : Option String)
      (reqParent : String) (oldParent : Option String) (db2 : DB),
      moveOp env db actor owner nodeId np reqParent oldParent = (db2, none) →
      (∃ m ∈ db.nodes, m.id = nodeId ∧
        { m with parentId := np, modifiedAt := db.now } ∈ db2.nodes) ∧
      ∃ ev ∈ db2.events, ev.userId = actor ∧ ev.eventType = "node_moved") ∧
    (∀ (env : Env) (db : DB) (actor owner : Int) (nodeId : String)
      (oldParent : Option String), env.journalFails = true →
      ∃ e, trashOp env db actor owner nodeId oldParent = (db, some e)) ∧
    (∀ (env : Env) (db : DB) (actor owner : Int) (nodeId : String)
      (oldParent : Option String) (db2 : DB),
      trashOp env db actor owner nodeId oldParent = (db2, none) →
      (∃ m ∈ db.nodes, trashFields db.now m ∈ db2.nodes) ∧
      ∃ ev ∈ db2.events, ev.userId = actor ∧ ev.eventType = "node_trashed") ∧
    (∀ (env : Env) (db : DB) (actor : Int) (nodeId : String), env.journalFails = true →
      ∃ e, restoreOp env db actor nodeId = (db, some e)) ∧
    (∀ (env : Env) (db : DB) (actor : Int) (nodeId : String) (db2 : DB),
      restoreOp env db actor nodeId = (db2, none) →
      (∃ m ∈ db.nodes, m.id = nodeId ∧ restoreFields m ∈ db2.nodes) ∧
      ∃ ev ∈ db2.events, ev.userId = actor ∧ ev.eventType = "node_restored") ∧
    (∀ (env : Env) (db : DB) (userId : Int) (nodeId : String), env.journalFails = true →
      ∃ e, favoriteOp env db userId nodeId = (db, some e)) ∧
    (∀ (env : Env) (db : DB) (userId : Int) (nodeId : String) (db2 : DB),
      favoriteOp env db userId nodeId = (db2, none) →
      (userId, nodeId) ∈ db2.favorites ∧
      ∃ ev ∈ db2.events, ev.userId = userId ∧ ev.eventType = "favorite_added") ∧
    (∀ (env : Env) (db : DB) (arg : ShareNodeParams) (nodeInfo : Json),
      env.journalFails = true → ∃ e, shareOp env db arg nodeInfo = (db, some e)) ∧
    (∀ (env : Env) (db : DB) (arg : ShareNodeParams) (nodeInfo : Json) (db2 : DB),
      shareOp env db arg nodeInfo = (db2, none) →
      (∃ sh ∈ db2.shares, sh.nodeId = arg.nodeId ∧ sh.recipientId = arg.recipientId ∧
        sh.permissions = arg.permissions) ∧
      ∃ ev ∈ db2.events, ev.userId = arg.recipientId ∧
        ev.eventType = "node_shared_with_you") := by
  refine ⟨?_, createFolderOp_jf, createFolderOp_ok, renameOp_jf, renameOp_ok,
    moveOp_jf, moveOp_ok, trashOp_jf, trashOp_ok, restoreOp_jf, restoreOp_ok,
    favoriteOp_jf, favoriteOp_ok, shareOp_jf, shareOp_ok⟩
  intro db db2 fn e h
  unfold execTx at h
  cases hfn : fn db with
  | ok d => rw [hfn] at h; simp at h
  | error e2 => rw [hfn] at h; simp only [Prod.mk.injEq] at h; exact h.1.symm

/-- Witness for C2 on concrete inputs: with a failing journal the concrete
folder creation rolls back to the original database, and the committed
version contains both the new folder row and its node-created journal
record. -/
theorem c2_mutation_journal_atomicity_witness :
    (∃ e, createFolderOp envJF dbPC 1 none paramsN = (dbPC, some e)) ∧
    (newNodeRow paramsN dbPC.now ∈ dbAfterCreateN.nodes ∧
      ∃ ev ∈ dbAfterCreateN.events, ev.userId = 1 ∧ ev.eventType = "node_created") := by
  constructor
  · exact c2_mutation_journal_atomicity.2.1 envJF dbPC 1 none paramsN rfl
  · exact c2_mutation_journal_atomicity.2.2.1 envOk dbPC 1 none paramsN dbAfterCreateN rfl

/-- Shape of a successful per-file upload transaction body: the committed
state holds the inserted file row, the owner's storage counter charged by the
file size, and a node-created journal record for the actor. -/
theorem uploadTxBody_ok_elim {env : Env} {actor ownerId : Int} {pfo : Option Int}
    {parentId : Option String} {fileId : String} {f : FileUpload} {db dbt : DB} {nodet : Node}
    (h : uploadTxBody env actor ownerId pfo parentId fileId f db = Except.ok (dbt, nodet)) :
    nodet ∈ dbt.nodes ∧
    (∀ u ∈ db.users, u.id = ownerId →
      { u with storageUsedBytes := u.storageUsedBytes + f.size } ∈ dbt.users) ∧
    ∃ ev ∈ dbt.events, ev.userId = actor ∧ ev.eventType = "node_created" := by
  unfold uploadTxBody at h
  cases hc : createNode db
      { id := fileId, ownerId := ownerId, parentId := parentId, name := f.filename,
        nodeType := "file", sizeBytes := some f.size, mimeType := some f.mime } with
  | error e => rw [hc] at h; exact absurd h (by simp)
  | ok pr =>
    obtain ⟨dbc, nodec⟩ := pr
    rw [hc] at h
    dsimp only at h
    obtain ⟨hdbc, hnodec⟩ := create_ok_elim hc
    cases hl : logEvent env (updateUserStorage dbc ownerId f.size) actor "node_created"
        (nodeJson nodec) with
    | error e => rw [hl] at h; exact absurd h (by simp)
    | ok db3 =>
      rw [hl] at h
      dsimp only at h
      have hla := logEvent_ok_elim hl
      have hmemnode : nodec ∈ db3.nodes := by
        rw [hla]
        show nodec ∈ (updateUserStorage dbc ownerId f.size).nodes
        show nodec ∈ dbc.nodes
        rw [hdbc, hnodec]
        simp
      have hmemuser : ∀ u ∈ db.users, u.id = ownerId →
          { u with storageUsedBytes := u.storageUsedBytes + f.size } ∈ db3.users := by
        intro u hu huid
        rw [hla]
        show _ ∈ (updateUserStorage dbc ownerId f.size).users
        unfold updateUserStorage
        dsimp only
        have : dbc.users = db.users := by rw [hdbc]
        rw [this]
        exact List.mem_map.mpr ⟨u, hu, by rw [if_pos (by simp [huid])]⟩
      have hmemev : ∃ ev ∈ db3.events, ev.userId = actor ∧ ev.eventType = "node_created" := by
        rw [hla]
        exact ⟨EventRow.mk (updateUserStorage dbc ownerId f.size).nextEventId actor
          "node_created" (updateUserStorage dbc ownerId f.size).now
          (eventEnvelope "node_created" (nodeJson nodec)), by simp, rfl, rfl⟩
      cases pfo with
      | none =>
        simp only [Except.ok.injEq, Prod.mk.injEq] at h
        obtain ⟨h1, h2⟩ := h
        subst h1
        subst h2
        exact ⟨hmemnode, hmemuser, hmemev⟩
      | some o =>
        dsimp only at h
        by_cases hao : (actor == o) = true
        · rw [if_pos hao] at h
          simp only [Except.ok.injEq, Prod.mk.injEq] at h
          obtain ⟨h1, h2⟩ := h
          subst h1
          subst h2
          exact ⟨hmemnode, hmemuser, hmemev⟩
        · rw [if_neg hao] at h
          cases hl2 : logEvent env db3 o "node_created" (nodeJson nodec) with
          | error e => rw [hl2] at h; exact absurd h (by simp)
          | ok db4 =>
            rw [hl2] at h
            dsimp only at h
            simp only [Except.ok.injEq, Prod.mk.injEq] at h
            obtain ⟨h1, h2⟩ := h
            subst h1
            subst h2
            have hlb := logEvent_ok_elim hl2
            subst hlb
            refine ⟨by simpa using hmemnode, ?_, ?_⟩
            · intro u hu huid
              simpa using hmemuser u hu huid
            · obtain ⟨ev, hev, hev1, hev2⟩ := hmemev
              exact ⟨ev, by simp [hev], hev1, hev2⟩

/-- Claim C8: quota enforcement.  (i) When the combined size of an upload
batch would push the resolved owner's used bytes past their quota, the whole
batch is rejected before any per-file work: the database (hence the used
counter) and the blob store are unchanged.  (ii) A committed per-file upload
transaction pairs the node insertion with the owner's storage-counter update
and the journal row in one committed state.  (iii) A failed per-file
transaction leaves the database unchanged and, when the blob id was fresh,
deletes the orphaned blob it had saved. -/
theorem c8_quota_enforcement :
    (∀ (env : Env) (db : DB) (blobs : List String) (actor ownerId : Int)
      (pfo : Option Int) (parentId : Option String) (files : List (String × FileUpload))
      (ownerUser : User),
      getUserByID db ownerId = some ownerUser →
      ownerUser.storageQuotaBytes <
        ownerUser.storageUsedBytes + (files.map (fun x => x.2.size)).sum →
      uploadFiles env db blobs actor ownerId pfo parentId files =
        (db, blobs, Except.error ApiError.payloadTooLarge)) ∧
    (∀ (env : Env) (db : DB) (blobs : List String) (actor ownerId : Int)
      (pfo : Option Int) (parentId : Option String) (fileId : String) (f : FileUpload)
      (db1 : DB) (blobs1 : List String) (node : Node),
      uploadOneFile env db blobs actor ownerId pfo parentId fileId f =
        (db1, blobs1, some node) →
      node ∈ db1.nodes ∧
      (∀ u ∈ db.users, u.id = ownerId →
        { u with storageUsedBytes := u.storageUsedBytes + f.size } ∈ db1.users) ∧
      ∃ ev ∈ db1.events, ev.userId = actor ∧ ev.eventType = "node_created") ∧
    (∀ (env : Env) (db : DB) (blobs : List String) (actor ownerId : Int)
      (pfo : Option Int) (parentId : Option String) (fileId : String) (f : FileUpload)
      (db1 : DB) (blobs1 : List String),
      uploadOneFile env db blobs actor ownerId pfo parentId fileId f =
        (db1, blobs1, none) →
      db1 = db ∧ (fileId ∉ blobs → blobs1 = blobs)) := by
  refine ⟨?_, ?_, ?_⟩
  · intro env db blobs actor ownerId pfo parentId files ownerUser huser hq
    unfold uploadFiles
    rw [huser]
    dsimp only
    rw [if_pos hq]
  · intro env db blobs actor ownerId pfo parentId fileId f db1 blobs1 node h
    unfold uploadOneFile at h
    cases ht : uploadTxBody env actor ownerId pfo parentId fileId f db with
    | error e => rw [ht] at h; simp at h
    | ok pr =>
      obtain ⟨dbt, nodet⟩ := pr
      rw [ht] at h
      simp only [Prod.mk.injEq, Option.some.injEq] at h
      obtain ⟨h1, -, h3⟩ := h
      subst h1
      subst h3
      exact uploadTxBody_ok_elim ht
  · intro env db blobs actor ownerId pfo parentId fileId f db1 blobs1 h
    unfold uploadOneFile at h
    cases ht : uploadTxBody env actor ownerId pfo parentId fileId f db with
    | ok pr => rw [ht] at h; simp at h
    | error e =>
      rw [ht] at h
      simp only [Prod.mk.injEq] at h
      obtain ⟨h1, h2, -⟩ := h
      refine ⟨h1.symm, fun hfresh => ?_⟩
      rw [← h2]
      rw [List.erase_append_right _ hfresh]
      simp [List.erase_cons]

/-- Witness for C8: the oversized upload into dbPD is rejected with the
database and blob store unchanged, and the committed small upload pairs the
file row with owner 1's charged counter and the journal record. -/
theorem c8_quota_enforcement_witness :
    uploadFiles envOk dbPD [] 1 1 none none [("F1", bigF)] =
      (dbPD, [], Except.error ApiError.payloadTooLarge) ∧
    ({ mkUser 1 100 1 with storageUsedBytes := 1 + upF.size } : User) ∈ dbUp.users := by
  constructor
  · exact c8_quota_enforcement.1 envOk dbPD [] 1 1 none none [("F1", bigF)]
      (mkUser 1 100 1) rfl (by decide)
  · exact (c8_quota_enforcement.2.1 envOk dbPD [] 1 1 none (some "P") "U1" upF
      dbUp ["U1"] (newNodeRow
        { id := "U1", ownerId := 1, parentId := some "P", name := "new.txt",
          nodeType := "file", sizeBytes := some 4, mimeType := some "text/plain" }
        dbPD.now) rfl).2.1 (mkUser 1 100 1) (by decide) rfl

end FileServer
